import Mathlib

/-
Verification of the goverify declarative struct validation/transformation
engine (package goverify: validator.go, transformer.go, rules.go,
string_transformers.go, types.go, err.go).

Modelling conventions:
 * Go strings are modelled as `List Char` (one entry per rune); `String`
   is used at the API surface (field names, tags, messages) and converted
   with `String.toList` / `List.asString`.
 * Go standard-library functions with small, fully specified behaviour
   (strings.TrimSpace, strings.Fields, strings.Split, strings.ReplaceAll,
   strconv.Atoi, unicode.IsSpace) are translated concretely.  Functions
   whose behaviour depends on large external tables or engines
   (unicode.ToLower/ToUpper/IsLetter/IsNumber, regexp, net/url,
   strconv.ParseFloat, float formatting) are abstracted into a `GoLib`
   record of parameters; theorems quantify over them, and concrete
   instantiations (an ASCII fragment) are provided for evaluation.
 * Go float64 values are modelled as `Rat`; the engine only compares them
   and tests them against zero.
 * reflect.Value mutation is modelled by returning the updated value.
   `CanSet` is modelled as true: we model the documented call pattern
   (a pointer to a struct of exported fields), in which every traversed
   field is settable.
 * Go maps (the violations map and the registries) are modelled as
   association lists with last-writer-wins update; iteration order of the
   model is insertion order (Go's map iteration order is unspecified, and
   no claim depends on it beyond the key/value contents).
-/

namespace GoVerify

/-! ### Characters and strings (Go standard library fragment) -/

/-- Decides unicode.IsSpace: Latin-1 fast path ('\t', '\n', '\v', '\f',
'\r', ' ', U+0085, U+00A0) plus the Unicode White_Space property ranges. -/
def goIsSpace (c : Char) : Bool :=
  decide (c.toNat = 9 ∨ c.toNat = 10 ∨ c.toNat = 11 ∨ c.toNat = 12 ∨ c.toNat = 13 ∨
    c.toNat = 32 ∨ c.toNat = 0x85 ∨ c.toNat = 0xA0 ∨ c.toNat = 0x1680 ∨
    (0x2000 ≤ c.toNat ∧ c.toNat ≤ 0x200A) ∨ c.toNat = 0x2028 ∨ c.toNat = 0x2029 ∨
    c.toNat = 0x202F ∨ c.toNat = 0x205F ∨ c.toNat = 0x3000)

/-- Decides membership in the four ASCII whitespace characters ' ', '\t',
'\n', '\r' that the remove_whitespace transformer and the no_whitespace
rule (strings.ContainsAny " \t\n\r") work with. -/
def isASCIISpaceChar (c : Char) : Bool :=
  decide (c.toNat = 32 ∨ c.toNat = 9 ∨ c.toNat = 10 ∨ c.toNat = 13)

/-- Translates strings.TrimSpace: drop unicode.IsSpace characters from
both ends. -/
def stringsTrimSpace (s : List Char) : List Char :=
  ((s.dropWhile goIsSpace).reverse.dropWhile goIsSpace).reverse

/-- Accumulator worker for stringsFields. -/
def stringsFieldsAux (cur : List Char) : List Char → List (List Char)
  | [] => if cur.isEmpty then [] else [cur.reverse]
  | c :: cs =>
    if goIsSpace c then
      if cur.isEmpty then stringsFieldsAux [] cs
      else cur.reverse :: stringsFieldsAux [] cs
    else stringsFieldsAux (c :: cur) cs

/-- Translates strings.Fields: split around maximal runs of
unicode.IsSpace characters, returning only the non-empty words. -/
def stringsFields (s : List Char) : List (List Char) :=
  stringsFieldsAux [] s

/-- Tag tokenisation at the String level: strings.Fields on the tag. -/
def stringsFieldsS (s : String) : List String :=
  (stringsFields s.toList).map List.asString

/-- Accumulator worker for splitOnChar. -/
def splitOnCharAux (sep : Char) : List Char → List Char → List (List Char)
  | cur, [] => [cur.reverse]
  | cur, c :: cs =>
    if c = sep then cur.reverse :: splitOnCharAux sep [] cs
    else splitOnCharAux sep (c :: cur) cs

/-- Translates strings.Split with a one-character separator (the engine
splits only on "=" and ","). -/
def splitOnChar (sep : Char) (s : List Char) : List (List Char) :=
  splitOnCharAux sep [] s

/-- Rule-name extraction, strings.Split(rule, "=")[0]: everything before
the first '='. -/
def ruleNameOf (tok : String) : String :=
  ((splitOnChar '=' tok.toList).headD []).asString

/-- Boolean ASCII-level prefix test over the rune lists (strings.HasPrefix
on the engine's ASCII parameter markers such as "min="). -/
def strHasPref (pre t : String) : Bool :=
  pre.toList.isPrefixOf t.toList

/-- Translates strings.TrimPrefix for a prefix already known to match:
drop that many leading runes. -/
def strTrimPref (pre t : String) : String :=
  (t.toList.drop pre.toList.length).asString

/-- Translates strings.Contains on rune lists. -/
def strContains : (s sub : List Char) → Bool
  | s, sub =>
    sub.isPrefixOf s ||
      match s with
      | [] => false
      | _ :: t => strContains t sub

/-- Decimal digit value of a character, if it is one. -/
def decDigit (c : Char) : Option Nat :=
  if 48 ≤ c.toNat ∧ c.toNat ≤ 57 then some (c.toNat - 48) else none

/-- Reads a non-empty all-digit string as a Nat; none on any non-digit. -/
def decDigits (s : List Char) : Option Nat :=
  s.foldl
    (fun acc c =>
      match acc, decDigit c with
      | some n, some d => some (n * 10 + d)
      | _, _ => none)
    (some 0)

/-- Translates strconv.Atoi: optional sign, non-empty digit string,
64-bit signed range; none models a non-nil error. -/
def goAtoi (s : String) : Option Int :=
  match s.toList with
  | [] => none
  | '+' :: rest =>
    match rest, decDigits rest with
    | [], _ => none
    | _ :: _, some n => if n ≤ 9223372036854775807 then some (Int.ofNat n) else none
    | _ :: _, none => none
  | '-' :: rest =>
    match rest, decDigits rest with
    | [], _ => none
    | _ :: _, some n => if n ≤ 9223372036854775808 then some (-(Int.ofNat n)) else none
    | _ :: _, none => none
  | l =>
    match decDigits l with
    | some n => if n ≤ 9223372036854775807 then some (Int.ofNat n) else none
    | none => none

/-- Byte length of a Go string (len(s) counts UTF-8 bytes, not runes). -/
def utf8Len (s : List Char) : Nat :=
  (s.map Char.utf8Size).sum

/-- Abstraction of the Go standard-library functions whose behaviour
depends on large Unicode tables or full engines: the simple case
mappings unicode.ToLower/ToUpper, the classifiers unicode.IsLetter and
unicode.IsNumber, the regexp engine (compile success and MatchString),
url.ParseRequestURI success, strconv.ParseFloat and the %v float
formatting.  The engine's own logic is written against this record. -/
structure GoLib where
  toLowerChar : Char → Char
  toUpperChar : Char → Char
  isLetter : Char → Bool
  isNumber : Char → Bool
  regexCompileOk : String → Bool
  regexMatch : String → String → Bool
  parseRequestURIOk : String → Bool
  parseFloat : String → Option Rat
  formatFloat : Rat → String

/-- ASCII fragment of unicode.ToLower: map 'A'..'Z' to 'a'..'z'. -/
def asciiToLower (c : Char) : Char :=
  if 65 ≤ c.toNat ∧ c.toNat ≤ 90 then Char.ofNat (c.toNat + 32) else c

/-- ASCII fragment of unicode.ToUpper: map 'a'..'z' to 'A'..'Z'. -/
def asciiToUpper (c : Char) : Char :=
  if 97 ≤ c.toNat ∧ c.toNat ≤ 122 then Char.ofNat (c.toNat - 32) else c

/-- Concrete GoLib instantiation used to evaluate examples: ASCII case
mappings and classifiers, trivial regex/url/float components (none of the
evaluated examples exercise those). -/
def asciiLib : GoLib :=
  ⟨asciiToLower, asciiToUpper, Char.isAlpha, Char.isDigit,
    fun _ => false, fun _ _ => false, fun _ => false, fun _ => none, fun _ => ""⟩

/-! ### Error model (err.go) and the violations map -/

/-- Association-list model of the Go map[string][]string violations map. -/
abbrev VMap := List (String × List String)

/-- Reads a key; the zero value (an empty list) when absent. -/
def vmapGet (m : VMap) (k : String) : List String :=
  match m with
  | [] => []
  | (k', v) :: rest => if k' = k then v else vmapGet rest k

/-- Sets a key, replacing an existing binding (Go map assignment). -/
def vmapSet (m : VMap) (k : String) (v : List String) : VMap :=
  match m with
  | [] => [(k, v)]
  | (k', v') :: rest => if k' = k then (k, v) :: rest else (k', v') :: vmapSet rest k v

/-- The pattern violations[k] = append(violations[k], msg). -/
def vmapAppend (m : VMap) (k : String) (msg : String) : VMap :=
  vmapSet m k (vmapGet m k ++ [msg])

/-- Key list of a violations map. -/
def vmapKeys (m : VMap) : List String :=
  m.map Prod.fst

/-- Translates the Err struct of err.go: a message plus the per-field
violation map. -/
structure Err where
  msg : String
  fields : VMap
deriving DecidableEq, Repr

/-! ### Records: reflect.Value fragment seen by the engine -/

/-- Declared metadata of one struct field: its name and its two tags
(field.Tag.Get("validator") and field.Tag.Get("transform"); an absent tag
reads as ""). -/
structure FieldDecl where
  name : String
  vtag : String
  ttag : String
deriving DecidableEq, Repr

mutual
/-- Model of the reflect.Value kinds the engine dispatches on: strings,
signed ints (any width), unsigned ints, bools, floats (as Rat), pointers
(nil or to a value), maps (opaque: the engine never inspects contents),
structs, slices and arrays.  Struct field lists and element lists are
spine inductives so that all recursion stays structural. -/
inductive Value where
  | vstring (s : List Char)
  | vint (n : Int)
  | vuint (n : Nat)
  | vbool (b : Bool)
  | vfloat (q : Rat)
  | vptrNil
  | vptr (v : Value)
  | vmap
  | vstruct (fs : Fields)
  | vslice (es : Elems)
  | varray (es : Elems)
deriving DecidableEq, Repr

/-- Spine list of (field declaration, field value) pairs of a struct. -/
inductive Fields where
  | nil
  | cons (fd : FieldDecl) (v : Value) (rest : Fields)
deriving DecidableEq, Repr

/-- Spine list of slice/array elements. -/
inductive Elems where
  | nil
  | cons (v : Value) (rest : Elems)
deriving DecidableEq, Repr
end

/-- Number of elements (v.Len() of a slice or array). -/
def elemsLength : Elems → Nat
  | .nil => 0
  | .cons _ rest => elemsLength rest + 1

/-! ### Transformation engine (transformer.go, string_transformers.go) -/

/-- Model of TransformFunc: the transformer receives the field value and
returns the (possibly mutated) value together with an optional error
message (types.go: func(reflect.Value) error, mutating in place). -/
abbrev TransformFunc := Value → Value × Option String

/-- The trim transformer: strings.TrimSpace on string values, no-op
otherwise (the Kind check at the top of every built-in). -/
def trimTransformer : TransformFunc
  | .vstring s => (.vstring (stringsTrimSpace s), none)
  | v => (v, none)

/-- The lowercase transformer: strings.ToLower maps unicode.ToLower over
the runes; no-op on non-strings. -/
def lowercaseTransformer (lib : GoLib) : TransformFunc
  | .vstring s => (.vstring (s.map lib.toLowerChar), none)
  | v => (v, none)

/-- The uppercase transformer, via unicode.ToUpper. -/
def uppercaseTransformer (lib : GoLib) : TransformFunc
  | .vstring s => (.vstring (s.map lib.toUpperChar), none)
  | v => (v, none)

/-- The remove_whitespace transformer: the four sequential
strings.ReplaceAll calls delete every ' ', '\t', '\n' and '\r'. -/
def removeWhitespaceTransformer : TransformFunc
  | .vstring s => (.vstring (s.filter (fun c => !isASCIISpaceChar c)), none)
  | v => (v, none)

/-- The transformers registry after init() has run addStringTransformers:
lookup by name in the map populated by AddTransformer. -/
def builtinTransformers (lib : GoLib) : String → Option TransformFunc :=
  fun name =>
    if name = "trim" then some trimTransformer
    else if name = "lowercase" then some (lowercaseTransformer lib)
    else if name = "uppercase" then some (uppercaseTransformer lib)
    else if name = "remove_whitespace" then some removeWhitespaceTransformer
    else none

/-- Translates the priorityLookup map; reading a missing key from a Go
map yields the zero value 0. -/
def priorityLookup (name : String) : Nat :=
  if name = "trim" then 1
  else if name = "remove_whitespace" then 2
  else if name = "lowercase" then 3
  else if name = "uppercase" then 4
  else 0

/-- One pass of orderTransforms' inner loop (index j over the tail) for a
fixed outer index i: the register x holds the current a[i]; whenever
priority(a[i]) > priority(a[j]) the two are swapped.  Returns the final
a[i] together with the updated tail. -/
def innerPass (x : String) : List String → String × List String
  | [] => (x, [])
  | y :: ys =>
    if priorityLookup y < priorityLookup x then
      let p := innerPass y ys
      (p.1, x :: p.2)
    else
      let p := innerPass x ys
      (p.1, y :: p.2)

/-- The outer loop of orderTransforms, structurally recursive on a fuel
count (the loop runs at most length-many times; orderTransforms supplies
exactly that fuel, so the 0 case is never reached from it). -/
def exchangeSortAux : Nat → List String → List String
  | 0, l => l
  | _ + 1, [] => []
  | fuel + 1, x :: xs =>
    let p := innerPass x xs
    p.1 :: exchangeSortAux fuel p.2

/-- Translates orderTransforms: copy the token list and sort it by the
priorityLookup table with the double swap loop. -/
def orderTransforms (ts : List String) : List String :=
  exchangeSortAux ts.length ts

/-- The loop body of applyTransformations over the ordered tokens:
unknown names are skipped, a transformer error short-circuits the
remaining transforms of this field. -/
def applyTransformList (reg : String → Option TransformFunc) :
    List String → Value → Value × Option String
  | [], v => (v, none)
  | t :: rest, v =>
    match reg t with
    | none => applyTransformList reg rest v
    | some fn =>
      match fn v with
      | (v', none) => applyTransformList reg rest v'
      | (v', some e) => (v', some e)

/-- Translates applyTransformations: an empty transform tag does nothing;
otherwise tokenise with strings.Fields, reorder with orderTransforms and
run the pipeline.  (CanSet is modelled as true, see header.) -/
def applyTransformations (reg : String → Option TransformFunc)
    (field : FieldDecl) (v : Value) : Value × Option String :=
  if field.ttag = "" then (v, none)
  else applyTransformList reg (orderTransforms (stringsFieldsS field.ttag)) v

/-- Tail of transformStruct's field loop: run the field's own transforms
and, on error, record err.Error() under the field name. -/
def applyFieldTransforms (reg : String → Option TransformFunc)
    (acc : VMap) (fd : FieldDecl) (v : Value) : Value × VMap :=
  match applyTransformations reg fd v with
  | (v', none) => (v', acc)
  | (v', some e) => (v', vmapAppend acc fd.name e)

/-- Merge loop for a nested recursion failure: for every (k, v) of the
nested error's Fields, violations[pre + k] = v. -/
def mergePrefixed (acc : VMap) (pre : String) (vio : VMap) : VMap :=
  vio.foldl (fun a p => vmapSet a (pre ++ p.1) p.2) acc

mutual
/-- Translates transformStruct's loop over the fields, threading the
violations map (fresh per recursion level: top calls start from []). -/
def transformStruct (reg : String → Option TransformFunc) (acc : VMap) :
    Fields → Fields × VMap
  | .nil => (.nil, acc)
  | .cons fd v rest =>
    let p := transformField reg acc fd v
    let q := transformStruct reg p.2 rest
    (.cons fd p.1 q.1, q.2)

/-- One iteration of transformStruct's loop: recurse into a struct field,
a non-nil pointer to a struct, or the struct elements of a slice; a
failed struct/pointer recursion merges the prefixed violations and skips
(continue) the field's own transforms, a successful one falls through to
them; slice element failures are merged with Name[j]. prefixes and the
own transforms run regardless. -/
def transformField (reg : String → Option TransformFunc) (acc : VMap)
    (fd : FieldDecl) : Value → Value × VMap
  | .vstruct fs =>
    let p := transformStruct reg [] fs
    if p.2 = [] then applyFieldTransforms reg acc fd (.vstruct p.1)
    else (.vstruct p.1, mergePrefixed acc (fd.name ++ ".") p.2)
  | .vptr (.vstruct fs) =>
    let p := transformStruct reg [] fs
    if p.2 = [] then applyFieldTransforms reg acc fd (.vptr (.vstruct p.1))
    else (.vptr (.vstruct p.1), mergePrefixed acc (fd.name ++ ".") p.2)
  | .vslice es =>
    let p := transformElems reg fd.name 0 acc es
    applyFieldTransforms reg p.2 fd (.vslice p.1)
  | v => applyFieldTransforms reg acc fd v

/-- The j-indexed loop over a slice's elements: recurse into struct
elements only, merging failures under Name[j]. prefixes. -/
def transformElems (reg : String → Option TransformFunc) (name : String)
    (j : Nat) (acc : VMap) : Elems → Elems × VMap
  | .nil => (.nil, acc)
  | .cons (.vstruct fs) rest =>
    let p := transformStruct reg [] fs
    let acc' := mergePrefixed acc (name ++ "[" ++ toString j ++ "].") p.2
    let q := transformElems reg name (j + 1) acc' rest
    (.cons (.vstruct p.1) q.1, q.2)
  | .cons v rest =>
    let q := transformElems reg name (j + 1) acc rest
    (.cons v q.1, q.2)
end

/-- Translates Transform for a struct-shaped record that passed the
input-shape checks: run transformStruct and wrap a non-empty violations
map in NewErr("transformation failed", violations). -/
def Transform (reg : String → Option TransformFunc) (fs : Fields) :
    Fields × Option Err :=
  let p := transformStruct reg [] fs
  (p.1, if p.2 = [] then none else some ⟨"transformation failed", p.2⟩)

/-! ### Validation rules (rules.go) -/

/-- Model of ValidationRule (types.go): the rule receives the field's
value and its declaration (including the full validator tag) and returns
zero or more violation messages. -/
abbrev ValidationRule := Value → FieldDecl → List String

/-- Scan of the tag's whitespace tokens for the first one carrying the
given parameter marker (e.g. "min="), returning the text after it
(strings.HasPrefix / strings.TrimPrefix with break on first match). -/
def findRuleParam (marker : String) (tag : String) : Option String :=
  match (stringsFieldsS tag).find? (fun t => strHasPref marker t) with
  | some t => some (strTrimPref marker t)
  | none => none

/-- Translates the required rule (addRequiredRule): a violation exactly
for an empty string, a zero signed int, a zero float, or a length-zero
slice/array; every other kind passes. -/
def requiredRule : ValidationRule := fun v _field =>
  match v with
  | .vstring s => if s = [] then ["field is required"] else []
  | .vint n => if n = 0 then ["field is required"] else []
  | .vfloat q => if q = 0 then ["field is required"] else []
  | .vslice es => if elemsLength es = 0 then ["field is required"] else []
  | .varray es => if elemsLength es = 0 then ["field is required"] else []
  | _ => []

/-- Length check of the min rule after its parameter was parsed:
len(string) in bytes, or Len() of a slice/array. -/
def minLenCheck (minLength : Int) : Value → List String
  | .vstring s =>
    if (utf8Len s : Int) < minLength then
      ["length must be at least " ++ toString minLength] else []
  | .vslice es =>
    if (elemsLength es : Int) < minLength then
      ["must have at least " ++ toString minLength ++ " items"] else []
  | .varray es =>
    if (elemsLength es : Int) < minLength then
      ["must have at least " ++ toString minLength ++ " items"] else []
  | _ => []

/-- Translates the min rule: self-extract the min= parameter from the
tag (0 when absent), error on an unparsable number, then bound below. -/
def minRule : ValidationRule := fun v field =>
  match findRuleParam "min=" field.vtag with
  | some valStr =>
    match goAtoi valStr with
    | none => ["invalid min: " ++ valStr]
    | some minLength => minLenCheck minLength v
  | none => minLenCheck 0 v

/-- Length check of the max rule. -/
def maxLenCheck (maxLength : Int) : Value → List String
  | .vstring s =>
    if (utf8Len s : Int) > maxLength then
      ["length must not exceed " ++ toString maxLength] else []
  | .vslice es =>
    if (elemsLength es : Int) > maxLength then
      ["must not exceed " ++ toString maxLength ++ " items"] else []
  | .varray es =>
    if (elemsLength es : Int) > maxLength then
      ["must not exceed " ++ toString maxLength ++ " items"] else []
  | _ => []

/-- Translates the max rule. -/
def maxRule : ValidationRule := fun v field =>
  match findRuleParam "max=" field.vtag with
  | some valStr =>
    match goAtoi valStr with
    | none => ["invalid max: " ++ valStr]
    | some maxLength => maxLenCheck maxLength v
  | none => maxLenCheck 0 v

/-- Numeric check of min_value on signed-int and float kinds. -/
def minValCheck (lib : GoLib) (minValue : Rat) : Value → List String
  | .vint n =>
    if (n : Rat) < minValue then
      ["must be at least " ++ lib.formatFloat minValue] else []
  | .vfloat q =>
    if q < minValue then
      ["must be at least " ++ lib.formatFloat minValue] else []
  | _ => []

/-- Translates the min_value rule (strconv.ParseFloat on the parameter,
float64 comparison). -/
def minValueRule (lib : GoLib) : ValidationRule := fun v field =>
  match findRuleParam "min_value=" field.vtag with
  | some valStr =>
    match lib.parseFloat valStr with
    | none => ["invalid min_value: " ++ valStr]
    | some minValue => minValCheck lib minValue v
  | none => minValCheck lib 0 v

/-- Numeric check of max_value. -/
def maxValCheck (lib : GoLib) (maxValue : Rat) : Value → List String
  | .vint n =>
    if (n : Rat) > maxValue then
      ["must not exceed " ++ lib.formatFloat maxValue] else []
  | .vfloat q =>
    if q > maxValue then
      ["must not exceed " ++ lib.formatFloat maxValue] else []
  | _ => []

/-- Translates the max_value rule. -/
def maxValueRule (lib : GoLib) : ValidationRule := fun v field =>
  match findRuleParam "max_value=" field.vtag with
  | some valStr =>
    match lib.parseFloat valStr with
    | none => ["invalid max_value: " ++ valStr]
    | some maxValue => maxValCheck lib maxValue v
  | none => maxValCheck lib 0 v

/-- Translates the email rule: match the fixed email regex. -/
def emailRule (lib : GoLib) : ValidationRule := fun v _field =>
  match v with
  | .vstring s =>
    if lib.regexMatch "^[a-zA-Z0-9._%+-]+@[a-zA-Z0-9.-]+\\.[a-zA-Z]\x7b2,\x7d$" (List.asString s)
    then [] else ["invalid email format"]
  | _ => []

/-- Key lookup in the parsed parameter map. -/
def paramsGet (params : List (String × String)) (k : String) : Option String :=
  match params with
  | [] => none
  | (k', v) :: rest => if k' = k then some v else paramsGet rest k

/-- Map write for parseParams (last writer wins). -/
def paramsSet (params : List (String × String)) (k v : String) :
    List (String × String) :=
  match params with
  | [] => [(k, v)]
  | (k', v') :: rest =>
    if k' = k then (k, v) :: rest else (k', v') :: paramsSet rest k v

/-- Translates parseParams (validator.go): split the tag on commas, keep
the pairs that split on '=' into exactly two parts. -/
def parseParams (tag : String) : List (String × String) :=
  (splitOnChar ',' tag.toList).foldl
    (fun params pair =>
      match splitOnChar '=' pair with
      | [k, val] => paramsSet params k.asString val.asString
      | _ => params)
    []

/-- Translates the pattern rule: read the pattern= parameter through
parseParams, silently pass when it is absent or fails to compile. -/
def patternRule (lib : GoLib) : ValidationRule := fun v field =>
  match v with
  | .vstring s =>
    match paramsGet (parseParams field.vtag) "pattern" with
    | none => []
    | some pat =>
      if lib.regexCompileOk pat then
        if lib.regexMatch pat (List.asString s) then [] else ["invalid format"]
      else []
  | _ => []

/-- Translates the alphanum rule: letters, numbers and underscore only
(one message at the first offending rune, loop breaks). -/
def alphanumRule (lib : GoLib) : ValidationRule := fun v _field =>
  match v with
  | .vstring s =>
    if s.any (fun c => !(lib.isLetter c || lib.isNumber c || c = '_')) then
      ["must contain only letters, numbers, and underscores"] else []
  | _ => []

/-- Translates the alpha rule: letters only. -/
def alphaRule (lib : GoLib) : ValidationRule := fun v _field =>
  match v with
  | .vstring s =>
    if s.any (fun c => !lib.isLetter c) then ["must contain only letters"] else []
  | _ => []

/-- Translates the no_whitespace rule: strings.ContainsAny " \t\n\r". -/
def noWhitespaceRule : ValidationRule := fun v _field =>
  match v with
  | .vstring s =>
    if s.any isASCIISpaceChar then ["must not contain whitespace"] else []
  | _ => []

/-- Translates the url rule: an empty string passes, otherwise
url.ParseRequestURI must succeed. -/
def urlRule (lib : GoLib) : ValidationRule := fun v _field =>
  match v with
  | .vstring s =>
    if s = [] then []
    else if lib.parseRequestURIOk (List.asString s) then []
    else ["must be a valid URL"]
  | _ => []

/-- Octet scan of the ipv4 rule: strconv.Atoi each dot-separated part and
range-check 0..255 (loop breaks at the first bad octet). -/
def ipv4Octets (s : List Char) : List String :=
  if (splitOnChar '.' s).any
      (fun part =>
        match goAtoi part.asString with
        | none => true
        | some n => n < 0 || n > 255) then
    ["must be a valid IPv4 address"]
  else []

/-- Translates the ipv4 rule: dotted-quad shape by regex, then the octet
range check. -/
def ipv4Rule (lib : GoLib) : ValidationRule := fun v _field =>
  match v with
  | .vstring s =>
    if lib.regexMatch "^(\\d\x7b1,3\x7d\\.)\x7b3\x7d\\d\x7b1,3\x7d$" (List.asString s) then
      ipv4Octets s
    else ["must be a valid IPv4 address"]
  | _ => []

/-- Translates the contains rule: self-extract contains= (empty string
when absent, which strings.Contains always satisfies). -/
def containsRule : ValidationRule := fun v field =>
  match v with
  | .vstring s =>
    let sub := (findRuleParam "contains=" field.vtag).getD ""
    if strContains s sub.toList then []
    else ["must contain '" ++ sub ++ "'"]
  | _ => []

/-- Translates the starts_with rule. -/
def startsWithRule : ValidationRule := fun v field =>
  match v with
  | .vstring s =>
    let pre := (findRuleParam "starts_with=" field.vtag).getD ""
    if pre.toList.isPrefixOf s then []
    else ["must start with '" ++ pre ++ "'"]
  | _ => []

/-- Translates the iso_date rule: the YYYY-MM-DD shape regex. -/
def isoDateRule (lib : GoLib) : ValidationRule := fun v _field =>
  match v with
  | .vstring s =>
    if lib.regexMatch "^\\d\x7b4\x7d-\\d\x7b2\x7d-\\d\x7b2\x7d$" (List.asString s) then []
    else ["must be a valid ISO8601 date (YYYY-MM-DD)"]
  | _ => []

/-- Translates the time rule: the HH:MM:SS regex. -/
def timeRule (lib : GoLib) : ValidationRule := fun v _field =>
  match v with
  | .vstring s =>
    if lib.regexMatch "^([01]\\d|2[0-3]):([0-5]\\d):([0-5]\\d)$" (List.asString s) then []
    else ["must be a valid time (HH:MM:SS)"]
  | _ => []

/-- The rules registry after init() has run all the add*Rule functions:
lookup by rule name in the map populated by AddRule. -/
def builtinRules (lib : GoLib) : String → Option ValidationRule :=
  fun name =>
    if name = "required" then some requiredRule
    else if name = "min" then some minRule
    else if name = "max" then some maxRule
    else if name = "min_value" then some (minValueRule lib)
    else if name = "max_value" then some (maxValueRule lib)
    else if name = "email" then some (emailRule lib)
    else if name = "pattern" then some (patternRule lib)
    else if name = "alphanum" then some (alphanumRule lib)
    else if name = "alpha" then some (alphaRule lib)
    else if name = "no_whitespace" then some noWhitespaceRule
    else if name = "url" then some (urlRule lib)
    else if name = "ipv4" then some (ipv4Rule lib)
    else if name = "contains" then some containsRule
    else if name = "starts_with" then some startsWithRule
    else if name = "iso_date" then some (isoDateRule lib)
    else if name = "time" then some (timeRule lib)
    else none

/-! ### Validation engine (validator.go) -/

/-- One iteration of Validate's field loop: skip an empty validator tag,
otherwise tokenise it, derive each token's rule name (the part before the
first '='), dispatch registered rules and collect non-empty results under
the field's name (unknown rule names are skipped). -/
def validateField (rules : String → Option ValidationRule) (acc : VMap)
    (fd : FieldDecl) (v : Value) : VMap :=
  if fd.vtag = "" then acc
  else
    (stringsFieldsS fd.vtag).foldl
      (fun a tok =>
        match rules (ruleNameOf tok) with
        | none => a
        | some r =>
          let errs := r v fd
          if errs = [] then a else vmapSet a fd.name (vmapGet a fd.name ++ errs))
      acc

/-- Validate's loop over the record's top-level fields: no recursion into
nested aggregates. -/
def validateViolations (rules : String → Option ValidationRule) (acc : VMap) :
    Fields → VMap
  | .nil => acc
  | .cons fd v rest => validateViolations rules (validateField rules acc fd v) rest

/-- Translates Validate for a struct-shaped record that passed the
input-shape checks: collect the violations and wrap a non-empty map in
NewErr("validation failed", violations), else (true, nil). -/
def Validate (rules : String → Option ValidationRule) (fs : Fields) :
    Bool × Option Err :=
  let vio := validateViolations rules [] fs
  if vio = [] then (true, none) else (false, some ⟨"validation failed", vio⟩)

/-! ### Lemmas: the transform ordering -/

theorem innerPass_length (x : String) (l : List String) :
    (innerPass x l).2.length = l.length := by
  induction l generalizing x with
  | nil => rfl
  | cons y ys ih =>
    simp only [innerPass]
    by_cases h : priorityLookup y < priorityLookup x
    · simp [if_pos h, ih]
    · simp [if_neg h, ih]

theorem innerPass_perm (x : String) (l : List String) :
    List.Perm ((innerPass x l).1 :: (innerPass x l).2) (x :: l) := by
  induction l generalizing x with
  | nil => simp [innerPass]
  | cons y ys ih =>
    simp only [innerPass]
    by_cases h : priorityLookup y < priorityLookup x
    · simp only [if_pos h]
      exact (List.Perm.swap x (innerPass y ys).1 (innerPass y ys).2).trans
        ((ih y).cons x)
    · simp only [if_neg h]
      exact ((List.Perm.swap y (innerPass x ys).1 (innerPass x ys).2).trans
        ((ih x).cons y)).trans (List.Perm.swap x y ys)

theorem innerPass_min (x : String) (l : List String) :
    priorityLookup (innerPass x l).1 ≤ priorityLookup x ∧
      ∀ z ∈ (innerPass x l).2, priorityLookup (innerPass x l).1 ≤ priorityLookup z := by
  induction l generalizing x with
  | nil => simp [innerPass]
  | cons y ys ih =>
    simp only [innerPass]
    by_cases h : priorityLookup y < priorityLookup x
    · simp only [if_pos h]
      obtain ⟨h1, h2⟩ := ih y
      refine ⟨h1.trans h.le, ?_⟩
      intro z hz
      rcases List.mem_cons.mp hz with hz | hz
      · exact hz ▸ h1.trans h.le
      · exact h2 z hz
    · simp only [if_neg h]
      obtain ⟨h1, h2⟩ := ih x
      refine ⟨h1, ?_⟩
      intro z hz
      rcases List.mem_cons.mp hz with hz | hz
      · exact hz ▸ h1.trans (not_lt.mp h)
      · exact h2 z hz

theorem exchangeSortAux_perm :
    ∀ (fuel : Nat) (l : List String), l.length ≤ fuel →
      List.Perm (exchangeSortAux fuel l) l := by
  intro fuel
  induction fuel with
  | zero => intro l _; exact List.Perm.refl l
  | succ n ih =>
    intro l h
    match l with
    | [] => simp [exchangeSortAux]
    | x :: xs =>
      simp only [exchangeSortAux]
      have hl : (innerPass x xs).2.length ≤ n := by
        rw [innerPass_length]
        simpa using Nat.lt_succ_iff.mp (Nat.lt_of_lt_of_le (Nat.lt_succ_self _) h)
      exact ((ih _ hl).cons (innerPass x xs).1).trans (innerPass_perm x xs)

theorem exchangeSortAux_sorted :
    ∀ (fuel : Nat) (l : List String), l.length ≤ fuel →
      List.Sorted (fun a b => priorityLookup a ≤ priorityLookup b)
        (exchangeSortAux fuel l) := by
  intro fuel
  induction fuel with
  | zero =>
    intro l h
    have : l = [] := List.length_eq_zero.mp (Nat.le_zero.mp h)
    simp [this, exchangeSortAux]
  | succ n ih =>
    intro l h
    match l with
    | [] => simp [exchangeSortAux]
    | x :: xs =>
      simp only [exchangeSortAux]
      have hl : (innerPass x xs).2.length ≤ n := by
        rw [innerPass_length]
        simpa using Nat.lt_succ_iff.mp (Nat.lt_of_lt_of_le (Nat.lt_succ_self _) h)
      refine List.sorted_cons.mpr ⟨?_, ih _ hl⟩
      intro b hb
      have hmem : b ∈ (innerPass x xs).2 :=
        (exchangeSortAux_perm n _ hl).subset hb
      exact (innerPass_min x xs).2 b hmem

theorem orderTransforms_perm (ts : List String) :
    List.Perm (orderTransforms ts) ts :=
  exchangeSortAux_perm ts.length ts le_rfl

theorem orderTransforms_sorted (ts : List String) :
    List.Sorted (fun a b => priorityLookup a ≤ priorityLookup b)
      (orderTransforms ts) :=
  exchangeSortAux_sorted ts.length ts le_rfl

/-! ### Lemmas: trimming, whitespace removal and case mapping -/

/-- FL p l states that the first character of l (if any) fails p. -/
def FL (p : Char → Bool) (l : List Char) : Prop :=
  ∀ a t, l = a :: t → p a = false

theorem FL_nil (p : Char → Bool) : FL p [] := by
  intro a t h
  exact absurd h (List.cons_ne_nil a t).symm

theorem FL_dropWhile (p : Char → Bool) (l : List Char) : FL p (l.dropWhile p) := by
  induction l with
  | nil => exact FL_nil p
  | cons c cs ih =>
    rw [List.dropWhile_cons]
    by_cases h : p c
    · simpa [h] using ih
    · simp only [h]
      intro a t heq
      rw [if_neg (by simp [h])] at heq
      cases heq
      simpa using h

theorem dropWhile_of_FL (p : Char → Bool) (l : List Char) (h : FL p l) :
    l.dropWhile p = l := by
  cases l with
  | nil => rfl
  | cons c cs =>
    rw [List.dropWhile_cons, if_neg (by simp [h c cs rfl])]

theorem FL_of_append (p : Char → Bool) (l₁ l₂ : List Char)
    (h : FL p (l₁ ++ l₂)) : FL p l₁ := by
  intro a t heq
  exact h a (t ++ l₂) (by rw [heq]; rfl)

/-- Trimmed z states z neither starts nor ends with a unicode.IsSpace
character; the state after strings.TrimSpace. -/
def Trimmed (z : List Char) : Prop :=
  FL goIsSpace z ∧ FL goIsSpace z.reverse

theorem trimmed_trimSpace (s : List Char) : Trimmed (stringsTrimSpace s) := by
  unfold stringsTrimSpace
  obtain ⟨t, ht⟩ :=
    (List.dropWhile_suffix goIsSpace :
      (s.dropWhile goIsSpace).reverse.dropWhile goIsSpace <:+
        (s.dropWhile goIsSpace).reverse)
  constructor
  · have hA : FL goIsSpace (s.dropWhile goIsSpace) := FL_dropWhile _ _
    have : s.dropWhile goIsSpace =
        ((s.dropWhile goIsSpace).reverse.dropWhile goIsSpace).reverse ++ t.reverse := by
      conv_lhs => rw [← List.reverse_reverse (s.dropWhile goIsSpace), ← ht]
      rw [List.reverse_append]
    exact FL_of_append _ _ _ (this ▸ hA)
  · rw [List.reverse_reverse]
    exact FL_dropWhile _ _

theorem trimSpace_of_trimmed (z : List Char) (h : Trimmed z) :
    stringsTrimSpace z = z := by
  unfold stringsTrimSpace
  rw [dropWhile_of_FL _ _ h.1, dropWhile_of_FL _ _ h.2, List.reverse_reverse]

theorem stringsTrimSpace_idem (s : List Char) :
    stringsTrimSpace (stringsTrimSpace s) = stringsTrimSpace s :=
  trimSpace_of_trimmed _ (trimmed_trimSpace s)

theorem isASCIISpaceChar_goIsSpace (c : Char) (h : isASCIISpaceChar c = true) :
    goIsSpace c = true := by
  simp only [isASCIISpaceChar, decide_eq_true_eq] at h
  simp only [goIsSpace, decide_eq_true_eq]
  omega

theorem FL_filter (l : List Char) (h : FL goIsSpace l) :
    FL goIsSpace (l.filter (fun c => !isASCIISpaceChar c)) := by
  cases l with
  | nil => exact FL_nil _
  | cons a t =>
    have ha : goIsSpace a = false := h a t rfl
    have ha2 : isASCIISpaceChar a = false := by
      by_contra hc
      have := isASCIISpaceChar_goIsSpace a (by simpa using hc)
      rw [ha] at this
      exact Bool.false_ne_true this
    rw [List.filter_cons_of_pos (by simp [ha2])]
    intro b u heq
    cases heq
    exact ha

theorem trimmed_filter (z : List Char) (h : Trimmed z) :
    Trimmed (z.filter (fun c => !isASCIISpaceChar c)) := by
  refine ⟨FL_filter z h.1, ?_⟩
  rw [← List.filter_reverse]
  exact FL_filter z.reverse h.2

theorem trimmed_map (f : Char → Char) (hf : ∀ c, goIsSpace (f c) = goIsSpace c)
    (z : List Char) (h : Trimmed z) : Trimmed (z.map f) := by
  constructor
  · cases z with
    | nil => exact FL_nil _
    | cons a t =>
      intro b u heq
      simp only [List.map_cons] at heq
      cases heq
      rw [hf a]
      exact h.1 a t rfl
  · rw [← List.map_reverse]
    cases hz : z.reverse with
    | nil => exact FL_nil _
    | cons a t =>
      intro b u heq
      simp only [hz, List.map_cons] at heq
      cases heq
      rw [hf a]
      exact h.2 a t hz

/-- NoAS z states z contains none of the four ASCII whitespace
characters; the state after the remove_whitespace transformer. -/
def NoAS (z : List Char) : Prop :=
  ∀ c ∈ z, isASCIISpaceChar c = false

theorem noas_filter (z : List Char) :
    NoAS (z.filter (fun c => !isASCIISpaceChar c)) := by
  intro c hc
  have := List.of_mem_filter hc
  simpa using this

theorem noas_map (f : Char → Char)
    (hf : ∀ c, isASCIISpaceChar (f c) = isASCIISpaceChar c)
    (z : List Char) (h : NoAS z) : NoAS (z.map f) := by
  intro c hc
  obtain ⟨a, ha, rfl⟩ := List.mem_map.mp hc
  rw [hf a]
  exact h a ha

theorem filter_of_noas (z : List Char) (h : NoAS z) :
    z.filter (fun c => !isASCIISpaceChar c) = z :=
  List.filter_eq_self.mpr (fun a ha => by simp [h a ha])

/-! ### Lemmas: the built-in pipeline as a flag-indexed function -/

/-- String-kind test (reflect Kind() == reflect.String). -/
def Value.isString : Value → Bool
  | .vstring _ => true
  | _ => false

/-- Conditional trim. -/
def trApp (t : Bool) (s : List Char) : List Char :=
  if t then stringsTrimSpace s else s

/-- Conditional whitespace removal. -/
def rwApp (r : Bool) (s : List Char) : List Char :=
  if r then s.filter (fun c => !isASCIISpaceChar c) else s

/-- Conditional lower-casing. -/
def lowApp (lib : GoLib) (l : Bool) (s : List Char) : List Char :=
  if l then s.map lib.toLowerChar else s

/-- Conditional upper-casing. -/
def upApp (lib : GoLib) (u : Bool) (s : List Char) : List Char :=
  if u then s.map lib.toUpperChar else s

/-- The effect of an ordered built-in pipeline on a string, indexed by
which of the four built-ins occur: trim, then remove_whitespace, then
lowercase, then uppercase. -/
def runB (lib : GoLib) (t r l u : Bool) (s : List Char) : List Char :=
  upApp lib u (lowApp lib l (rwApp r (trApp t s)))

/-- The same at Value level: the built-ins only touch string kinds. -/
def runBV (lib : GoLib) (t r l u : Bool) : Value → Value
  | .vstring s => .vstring (runB lib t r l u s)
  | v => v

/-- Value-level effect of a single trim. -/
def trimV : Value → Value
  | .vstring s => .vstring (stringsTrimSpace s)
  | v => v

/-- Value-level effect of a single remove_whitespace. -/
def rwV : Value → Value
  | .vstring s => .vstring (s.filter (fun c => !isASCIISpaceChar c))
  | v => v

/-- Value-level effect of a single lowercase. -/
def lowV (lib : GoLib) : Value → Value
  | .vstring s => .vstring (s.map lib.toLowerChar)
  | v => v

/-- Value-level effect of a single uppercase. -/
def upV (lib : GoLib) : Value → Value
  | .vstring s => .vstring (s.map lib.toUpperChar)
  | v => v

/-- Token membership in a tag token list. -/
def hasTok (name : String) : List String → Bool
  | [] => false
  | hd :: tl => if hd = name then true else hasTok name tl

theorem hasTok_true_iff (name : String) (l : List String) :
    hasTok name l = true ↔ name ∈ l := by
  induction l with
  | nil => simp [hasTok]
  | cons hd tl ih =>
    by_cases h : hd = name
    · simp [hasTok, h]
    · simp [hasTok, h, ih, Ne.symm h]

theorem hasTok_eq_false_of_not_mem (name : String) (l : List String)
    (h : name ∉ l) : hasTok name l = false := by
  by_contra hc
  exact h ((hasTok_true_iff name l).mp (by simpa using hc))

theorem trimTransformer_eq (v : Value) : trimTransformer v = (trimV v, none) := by
  cases v <;> rfl

theorem removeWhitespaceTransformer_eq (v : Value) :
    removeWhitespaceTransformer v = (rwV v, none) := by
  cases v <;> rfl

theorem lowercaseTransformer_eq (lib : GoLib) (v : Value) :
    lowercaseTransformer lib v = (lowV lib v, none) := by
  cases v <;> rfl

theorem uppercaseTransformer_eq (lib : GoLib) (v : Value) :
    uppercaseTransformer lib v = (upV lib v, none) := by
  cases v <;> rfl

theorem builtinTransformers_spec (lib : GoLib) (name : String) (fn : TransformFunc)
    (h : builtinTransformers lib name = some fn) (v : Value) :
    (fn v).2 = none ∧ (Value.isString v = false → fn v = (v, none)) := by
  unfold builtinTransformers at h
  split_ifs at h <;>
    first
      | exact Option.noConfusion h
      | (obtain rfl := Option.some.inj h
         cases v <;>
           simp [trimTransformer, lowercaseTransformer, uppercaseTransformer,
             removeWhitespaceTransformer, Value.isString])

theorem applyTransformList_no_error (lib : GoLib) :
    ∀ (l : List String) (v : Value),
      (applyTransformList (builtinTransformers lib) l v).2 = none := by
  intro l
  induction l with
  | nil => intro v; rfl
  | cons t rest ih =>
    intro v
    simp only [applyTransformList]
    split
    · exact ih v
    · next fn hreg =>
      split
      · next v' _ => exact ih v'
      · next v' e hfn =>
        have h1 := (builtinTransformers_spec lib t fn hreg v).1
        rw [hfn] at h1
        simp at h1

theorem applyTransformList_nonstring (lib : GoLib) (v : Value)
    (hv : Value.isString v = false) :
    ∀ (l : List String),
      applyTransformList (builtinTransformers lib) l v = (v, none) := by
  intro l
  induction l with
  | nil => rfl
  | cons t rest ih =>
    simp only [applyTransformList]
    split
    · exact ih
    · next fn hreg =>
      obtain ⟨_, h2⟩ := builtinTransformers_spec lib t fn hreg v
      rw [h2 hv]
      exact ih

theorem runBV_nonstring (lib : GoLib) (t r l u : Bool) (v : Value)
    (hv : Value.isString v = false) : runBV lib t r l u v = v := by
  cases v <;> simp_all [Value.isString, runBV]

theorem trApp_trim (b : Bool) (s : List Char) :
    trApp b (stringsTrimSpace s) = stringsTrimSpace s := by
  cases b
  · rfl
  · exact stringsTrimSpace_idem s

theorem rwApp_rw (b : Bool) (s : List Char) :
    rwApp b (s.filter (fun c => !isASCIISpaceChar c)) =
      s.filter (fun c => !isASCIISpaceChar c) := by
  cases b
  · rfl
  · exact filter_of_noas _ (noas_filter s)

theorem runBV_trimV (lib : GoLib) (b r l u : Bool) (v : Value) :
    runBV lib b r l u (trimV v) = runBV lib true r l u v := by
  cases v <;> try rfl
  show Value.vstring (runB lib b r l u (stringsTrimSpace _)) = _
  simp only [runB, trApp_trim]
  rfl

theorem runBV_rwV (lib : GoLib) (b l u : Bool) (v : Value) :
    runBV lib false b l u (rwV v) = runBV lib false true l u v := by
  cases v <;> try rfl
  simp only [rwV, runBV, runB, trApp, Bool.false_eq_true, if_false, rwApp, if_true]
  cases b
  · simp
  · simp only [if_true, filter_of_noas _ (noas_filter _)]

theorem runBV_lowV (lib : GoLib)
    (hL : ∀ c, lib.toLowerChar (lib.toLowerChar c) = lib.toLowerChar c)
    (b u : Bool) (v : Value) :
    runBV lib false false b u (lowV lib v) = runBV lib false false true u v := by
  cases v <;> try rfl
  simp only [lowV, runBV, runB, trApp, rwApp, lowApp, Bool.false_eq_true, if_false, if_true]
  cases b
  · simp
  · simp only [if_true, List.map_map]
    have : ∀ a, (lib.toLowerChar ∘ lib.toLowerChar) a = lib.toLowerChar a := by
      intro a; simp [Function.comp]; rw [hL a]
    rw [List.map_congr_left (fun a _ => this a)]

theorem runBV_upV (lib : GoLib)
    (hU : ∀ c, lib.toUpperChar (lib.toUpperChar c) = lib.toUpperChar c)
    (b : Bool) (v : Value) :
    runBV lib false false false b (upV lib v) =
      runBV lib false false false true v := by
  cases v <;> try rfl
  simp only [upV, runBV, runB, trApp, rwApp, lowApp, upApp, Bool.false_eq_true, if_false, if_true]
  cases b
  · simp
  · simp only [if_true, List.map_map]
    have : ∀ a, (lib.toUpperChar ∘ lib.toUpperChar) a = lib.toUpperChar a := by
      intro a; simp [Function.comp]; rw [hU a]
    rw [List.map_congr_left (fun a _ => this a)]

theorem applyTransformList_sorted (lib : GoLib)
    (hL : ∀ c, lib.toLowerChar (lib.toLowerChar c) = lib.toLowerChar c)
    (hU : ∀ c, lib.toUpperChar (lib.toUpperChar c) = lib.toUpperChar c) :
    ∀ (l : List String),
      List.Sorted (fun a b => priorityLookup a ≤ priorityLookup b) l →
      ∀ (v : Value),
        applyTransformList (builtinTransformers lib) l v =
          (runBV lib (hasTok "trim" l) (hasTok "remove_whitespace" l)
            (hasTok "lowercase" l) (hasTok "uppercase" l) v, none) := by
  intro l
  induction l with
  | nil =>
    intro _ v
    cases v <;> rfl
  | cons hd tl ih =>
    intro hs v
    obtain ⟨hmin, hst⟩ := List.sorted_cons.mp hs
    by_cases h1 : hd = "trim"
    · subst h1
      have hstep : applyTransformList (builtinTransformers lib) ("trim" :: tl) v =
          applyTransformList (builtinTransformers lib) tl (trimV v) := by
        cases v <;> rfl
      rw [hstep, ih hst (trimV v), runBV_trimV]
      simp [hasTok]
    · by_cases h2 : hd = "remove_whitespace"
      · subst h2
        have htrim : hasTok "trim" tl = false := by
          apply hasTok_eq_false_of_not_mem
          intro hmem
          have := hmin "trim" hmem
          simp [priorityLookup] at this
        have hstep : applyTransformList (builtinTransformers lib)
            ("remove_whitespace" :: tl) v =
            applyTransformList (builtinTransformers lib) tl (rwV v) := by
          cases v <;> rfl
        rw [hstep, ih hst (rwV v), htrim, runBV_rwV]
        simp [hasTok, htrim]
      · by_cases h3 : hd = "lowercase"
        · subst h3
          have htrim : hasTok "trim" tl = false := by
            apply hasTok_eq_false_of_not_mem
            intro hmem
            have := hmin "trim" hmem
            simp [priorityLookup] at this
          have hrw : hasTok "remove_whitespace" tl = false := by
            apply hasTok_eq_false_of_not_mem
            intro hmem
            have := hmin "remove_whitespace" hmem
            simp [priorityLookup] at this
          have hstep : applyTransformList (builtinTransformers lib)
              ("lowercase" :: tl) v =
              applyTransformList (builtinTransformers lib) tl (lowV lib v) := by
            cases v <;> rfl
          rw [hstep, ih hst (lowV lib v), htrim, hrw, runBV_lowV lib hL]
          simp [hasTok, htrim, hrw]
        · by_cases h4 : hd = "uppercase"
          · subst h4
            have htrim : hasTok "trim" tl = false := by
              apply hasTok_eq_false_of_not_mem
              intro hmem
              have := hmin "trim" hmem
              simp [priorityLookup] at this
            have hrw : hasTok "remove_whitespace" tl = false := by
              apply hasTok_eq_false_of_not_mem
              intro hmem
              have := hmin "remove_whitespace" hmem
              simp [priorityLookup] at this
            have hlow : hasTok "lowercase" tl = false := by
              apply hasTok_eq_false_of_not_mem
              intro hmem
              have := hmin "lowercase" hmem
              simp [priorityLookup] at this
            have hstep : applyTransformList (builtinTransformers lib)
                ("uppercase" :: tl) v =
                applyTransformList (builtinTransformers lib) tl (upV lib v) := by
              cases v <;> rfl
            rw [hstep, ih hst (upV lib v), htrim, hrw, hlow, runBV_upV lib hU]
            simp [hasTok, htrim, hrw, hlow]
          · have hreg : builtinTransformers lib hd = none := by
              unfold builtinTransformers
              rw [if_neg h1, if_neg h3, if_neg h4, if_neg h2]
            have hstep : applyTransformList (builtinTransformers lib) (hd :: tl) v =
                applyTransformList (builtinTransformers lib) tl v := by
              simp only [applyTransformList]
              rw [hreg]
            rw [hstep, ih hst v]
            simp [hasTok, h1, h2, h3, h4]

theorem trimmed_runB (lib : GoLib)
    (hSpL : ∀ c, goIsSpace (lib.toLowerChar c) = goIsSpace c)
    (hSpU : ∀ c, goIsSpace (lib.toUpperChar c) = goIsSpace c)
    (r l u : Bool) (s : List Char) : Trimmed (runB lib true r l u s) := by
  have h1 : Trimmed (trApp true s) := by
    simpa [trApp] using trimmed_trimSpace s
  have h2 : Trimmed (rwApp r (trApp true s)) := by
    cases r
    · simpa [rwApp] using h1
    · simpa [rwApp] using trimmed_filter _ h1
  have h3 : Trimmed (lowApp lib l (rwApp r (trApp true s))) := by
    cases l
    · simpa [lowApp] using h2
    · simpa [lowApp] using trimmed_map _ hSpL _ h2
  cases u
  · simpa [runB, upApp] using h3
  · simpa [runB, upApp] using trimmed_map _ hSpU _ h3

theorem noas_runB (lib : GoLib)
    (hAspL : ∀ c, isASCIISpaceChar (lib.toLowerChar c) = isASCIISpaceChar c)
    (hAspU : ∀ c, isASCIISpaceChar (lib.toUpperChar c) = isASCIISpaceChar c)
    (t l u : Bool) (s : List Char) : NoAS (runB lib t true l u s) := by
  have h2 : NoAS (rwApp true (trApp t s)) := by
    simpa [rwApp] using noas_filter (trApp t s)
  have h3 : NoAS (lowApp lib l (rwApp true (trApp t s))) := by
    cases l
    · simpa [lowApp] using h2
    · simpa [lowApp] using noas_map _ hAspL _ h2
  cases u
  · simpa [runB, upApp] using h3
  · simpa [runB, upApp] using noas_map _ hAspU _ h3

theorem runB_idem (lib : GoLib)
    (hL : ∀ c, lib.toLowerChar (lib.toLowerChar c) = lib.toLowerChar c)
    (hU : ∀ c, lib.toUpperChar (lib.toUpperChar c) = lib.toUpperChar c)
    (hLU : ∀ c, lib.toUpperChar (lib.toLowerChar (lib.toUpperChar (lib.toLowerChar c))) =
      lib.toUpperChar (lib.toLowerChar c))
    (hSpL : ∀ c, goIsSpace (lib.toLowerChar c) = goIsSpace c)
    (hSpU : ∀ c, goIsSpace (lib.toUpperChar c) = goIsSpace c)
    (hAspL : ∀ c, isASCIISpaceChar (lib.toLowerChar c) = isASCIISpaceChar c)
    (hAspU : ∀ c, isASCIISpaceChar (lib.toUpperChar c) = isASCIISpaceChar c)
    (t r l u : Bool) (s : List Char) :
    runB lib t r l u (runB lib t r l u s) = runB lib t r l u s := by
  have step1 : trApp t (runB lib t r l u s) = runB lib t r l u s := by
    cases t
    · rfl
    · exact trimSpace_of_trimmed _ (trimmed_runB lib hSpL hSpU r l u s)
  have step2 : rwApp r (runB lib t r l u s) = runB lib t r l u s := by
    cases r
    · rfl
    · exact filter_of_noas _ (noas_runB lib hAspL hAspU t l u s)
  show upApp lib u (lowApp lib l (rwApp r (trApp t (runB lib t r l u s)))) =
    runB lib t r l u s
  rw [step1, step2]
  show upApp lib u (lowApp lib l
    (upApp lib u (lowApp lib l (rwApp r (trApp t s))))) =
    upApp lib u (lowApp lib l (rwApp r (trApp t s)))
  generalize rwApp r (trApp t s) = z
  cases l <;> cases u
  · rfl
  · show List.map lib.toUpperChar (List.map lib.toUpperChar z) =
      List.map lib.toUpperChar z
    rw [List.map_map]
    exact List.map_congr_left (fun a _ => by simp [Function.comp]; rw [hU a])
  · show List.map lib.toLowerChar (List.map lib.toLowerChar z) =
      List.map lib.toLowerChar z
    rw [List.map_map]
    exact List.map_congr_left (fun a _ => by simp [Function.comp]; rw [hL a])
  · show List.map lib.toUpperChar (List.map lib.toLowerChar
      (List.map lib.toUpperChar (List.map lib.toLowerChar z))) =
      List.map lib.toUpperChar (List.map lib.toLowerChar z)
    rw [List.map_map, List.map_map, List.map_map, List.map_map]
    exact List.map_congr_left (fun a _ => by simp [Function.comp]; rw [hLU a])

theorem runBV_idem (lib : GoLib)
    (hL : ∀ c, lib.toLowerChar (lib.toLowerChar c) = lib.toLowerChar c)
    (hU : ∀ c, lib.toUpperChar (lib.toUpperChar c) = lib.toUpperChar c)
    (hLU : ∀ c, lib.toUpperChar (lib.toLowerChar (lib.toUpperChar (lib.toLowerChar c))) =
      lib.toUpperChar (lib.toLowerChar c))
    (hSpL : ∀ c, goIsSpace (lib.toLowerChar c) = goIsSpace c)
    (hSpU : ∀ c, goIsSpace (lib.toUpperChar c) = goIsSpace c)
    (hAspL : ∀ c, isASCIISpaceChar (lib.toLowerChar c) = isASCIISpaceChar c)
    (hAspU : ∀ c, isASCIISpaceChar (lib.toUpperChar c) = isASCIISpaceChar c)
    (t r l u : Bool) (v : Value) :
    runBV lib t r l u (runBV lib t r l u v) = runBV lib t r l u v := by
  cases v <;> try rfl
  next s =>
  show Value.vstring (runB lib t r l u (runB lib t r l u s)) =
    Value.vstring (runB lib t r l u s)
  rw [runB_idem lib hL hU hLU hSpL hSpU hAspL hAspU]

/-! ### Lemmas: field-level transforms under the built-in registry -/

/-- Bundle of the identities the Unicode simple case mappings satisfy and
that pipeline idempotence rests on: both maps are idempotent, the
upper-of-lower composite is idempotent, and case mapping never creates or
destroys whitespace. -/
structure CaseMapOk (lib : GoLib) : Prop where
  lowLow : ∀ c, lib.toLowerChar (lib.toLowerChar c) = lib.toLowerChar c
  upUp : ∀ c, lib.toUpperChar (lib.toUpperChar c) = lib.toUpperChar c
  upLowUpLow : ∀ c,
    lib.toUpperChar (lib.toLowerChar (lib.toUpperChar (lib.toLowerChar c))) =
      lib.toUpperChar (lib.toLowerChar c)
  spLow : ∀ c, goIsSpace (lib.toLowerChar c) = goIsSpace c
  spUp : ∀ c, goIsSpace (lib.toUpperChar c) = goIsSpace c
  aspLow : ∀ c, isASCIISpaceChar (lib.toLowerChar c) = isASCIISpaceChar c
  aspUp : ∀ c, isASCIISpaceChar (lib.toUpperChar c) = isASCIISpaceChar c

theorem applyTransformations_no_error (lib : GoLib) (fd : FieldDecl) (v : Value) :
    (applyTransformations (builtinTransformers lib) fd v).2 = none := by
  unfold applyTransformations
  split
  · rfl
  · exact applyTransformList_no_error lib _ v

theorem applyTransformations_nonstring (lib : GoLib) (fd : FieldDecl) (v : Value)
    (hv : Value.isString v = false) :
    applyTransformations (builtinTransformers lib) fd v = (v, none) := by
  unfold applyTransformations
  split
  · rfl
  · exact applyTransformList_nonstring lib v hv _

theorem applyTransformations_idem (lib : GoLib) (h : CaseMapOk lib)
    (fd : FieldDecl) (v : Value) :
    applyTransformations (builtinTransformers lib) fd
        ((applyTransformations (builtinTransformers lib) fd v).1) =
      ((applyTransformations (builtinTransformers lib) fd v).1, none) := by
  by_cases hta : fd.ttag = ""
  · simp [applyTransformations, hta]
  · simp only [applyTransformations, if_neg hta]
    rw [applyTransformList_sorted lib h.lowLow h.upUp _ (orderTransforms_sorted _) v]
    dsimp only
    rw [applyTransformList_sorted lib h.lowLow h.upUp _ (orderTransforms_sorted _) _]
    rw [runBV_idem lib h.lowLow h.upUp h.upLowUpLow h.spLow h.spUp h.aspLow h.aspUp]

theorem applyFieldTransforms_builtin (lib : GoLib) (acc : VMap)
    (fd : FieldDecl) (v : Value) :
    applyFieldTransforms (builtinTransformers lib) acc fd v =
      ((applyTransformations (builtinTransformers lib) fd v).1, acc) := by
  unfold applyFieldTransforms
  split
  · next v' happ => rw [happ]
  · next v' e happ =>
    have hne := applyTransformations_no_error lib fd v
    rw [happ] at hne
    simp at hne

/-- Shapes whose transformField iteration does not recurse: everything
except a struct, a non-nil pointer to a struct, and a slice. -/
def notRecursed : Value → Bool
  | .vstruct _ => false
  | .vptr (.vstruct _) => false
  | .vslice _ => false
  | _ => true

theorem transformField_notRecursed (reg : String → Option TransformFunc)
    (acc : VMap) (fd : FieldDecl) (v : Value) (hv : notRecursed v = true) :
    transformField reg acc fd v = applyFieldTransforms reg acc fd v := by
  cases v with
  | vptr inner =>
    cases inner with
    | vstruct fs => simp [notRecursed] at hv
    | _ => rfl
  | vstruct fs => simp [notRecursed] at hv
  | vslice es => simp [notRecursed] at hv
  | _ => rfl

theorem notRecursed_applyTransformations (lib : GoLib) (h : CaseMapOk lib)
    (fd : FieldDecl) (v : Value) (hv : notRecursed v = true) :
    notRecursed (applyTransformations (builtinTransformers lib) fd v).1 = true := by
  cases hst : Value.isString v with
  | true =>
    obtain ⟨s, rfl⟩ : ∃ s, v = .vstring s := by
      cases v <;> simp [Value.isString] at hst
      exact ⟨_, rfl⟩
    unfold applyTransformations
    split
    · exact hv
    · rw [applyTransformList_sorted lib h.lowLow h.upUp _ (orderTransforms_sorted _)]
      rfl
  | false =>
    rw [applyTransformations_nonstring lib fd v hst]
    exact hv

theorem transformField_atom (lib : GoLib) (h : CaseMapOk lib) (acc : VMap)
    (fd : FieldDecl) (v : Value) (hv : notRecursed v = true) :
    (transformField (builtinTransformers lib) acc fd v).2 = acc ∧
      transformField (builtinTransformers lib) acc fd
          (transformField (builtinTransformers lib) acc fd v).1 =
        ((transformField (builtinTransformers lib) acc fd v).1, acc) := by
  rw [transformField_notRecursed _ _ _ _ hv, applyFieldTransforms_builtin lib]
  refine ⟨rfl, ?_⟩
  dsimp only
  have hv2 := notRecursed_applyTransformations lib h fd v hv
  rw [transformField_notRecursed _ _ _ _ hv2, applyFieldTransforms_builtin lib]
  rw [applyTransformations_idem lib h fd v]

/-- Struct-kind test (reflect Kind() == reflect.Struct). -/
def isStructV : Value → Bool
  | .vstruct _ => true
  | _ => false

theorem mergePrefixed_nil (acc : VMap) (pre : String) :
    mergePrefixed acc pre [] = acc := rfl

theorem applyTransformations_vstruct (lib : GoLib) (fd : FieldDecl) (x : Fields) :
    applyTransformations (builtinTransformers lib) fd (.vstruct x) = (.vstruct x, none) :=
  applyTransformations_nonstring lib fd (.vstruct x) rfl

theorem applyTransformations_vptr (lib : GoLib) (fd : FieldDecl) (w : Value) :
    applyTransformations (builtinTransformers lib) fd (.vptr w) = (.vptr w, none) :=
  applyTransformations_nonstring lib fd (.vptr w) rfl

theorem applyTransformations_vslice (lib : GoLib) (fd : FieldDecl) (es : Elems) :
    applyTransformations (builtinTransformers lib) fd (.vslice es) = (.vslice es, none) :=
  applyTransformations_nonstring lib fd (.vslice es) rfl

theorem transformElems_cons_notstruct (reg : String → Option TransformFunc)
    (name : String) (j : Nat) (acc : VMap) (v : Value) (rest : Elems)
    (hv : isStructV v = false) :
    transformElems reg name j acc (.cons v rest) =
      (.cons v (transformElems reg name (j + 1) acc rest).1,
        (transformElems reg name (j + 1) acc rest).2) := by
  cases v <;> first | rfl | simp [isStructV] at hv

mutual

theorem transformStruct_builtin_idem (lib : GoLib) (h : CaseMapOk lib) :
    ∀ (fs : Fields) (acc : VMap),
      (transformStruct (builtinTransformers lib) acc fs).2 = acc ∧
        transformStruct (builtinTransformers lib) acc
            (transformStruct (builtinTransformers lib) acc fs).1 =
          ((transformStruct (builtinTransformers lib) acc fs).1, acc)
  | .nil, acc => ⟨rfl, rfl⟩
  | .cons fd v rest, acc => by
    obtain ⟨hf1, hf2⟩ := transformField_builtin_idem lib h v acc fd
    obtain ⟨hr1, hr2⟩ := transformStruct_builtin_idem lib h rest acc
    have e1 : transformStruct (builtinTransformers lib) acc (.cons fd v rest) =
        (.cons fd (transformField (builtinTransformers lib) acc fd v).1
          (transformStruct (builtinTransformers lib)
            (transformField (builtinTransformers lib) acc fd v).2 rest).1,
          (transformStruct (builtinTransformers lib)
            (transformField (builtinTransformers lib) acc fd v).2 rest).2) := rfl
    rw [e1, hf1]
    refine ⟨hr1, ?_⟩
    have e2 : transformStruct (builtinTransformers lib) acc
        (.cons fd (transformField (builtinTransformers lib) acc fd v).1
          (transformStruct (builtinTransformers lib) acc rest).1) =
        (.cons fd (transformField (builtinTransformers lib) acc fd
            (transformField (builtinTransformers lib) acc fd v).1).1
          (transformStruct (builtinTransformers lib)
            (transformField (builtinTransformers lib) acc fd
              (transformField (builtinTransformers lib) acc fd v).1).2
            (transformStruct (builtinTransformers lib) acc rest).1).1,
          (transformStruct (builtinTransformers lib)
            (transformField (builtinTransformers lib) acc fd
              (transformField (builtinTransformers lib) acc fd v).1).2
            (transformStruct (builtinTransformers lib) acc rest).1).2) := rfl
    rw [e2, hf2]
    dsimp only
    rw [hr2]

theorem transformField_builtin_idem (lib : GoLib) (h : CaseMapOk lib) :
    ∀ (v : Value) (acc : VMap) (fd : FieldDecl),
      (transformField (builtinTransformers lib) acc fd v).2 = acc ∧
        transformField (builtinTransformers lib) acc fd
            (transformField (builtinTransformers lib) acc fd v).1 =
          ((transformField (builtinTransformers lib) acc fd v).1, acc)
  | .vstruct fs, acc, fd => by
    obtain ⟨hs1, hs2⟩ := transformStruct_builtin_idem lib h fs []
    have e1 : transformField (builtinTransformers lib) acc fd (.vstruct fs) =
        if (transformStruct (builtinTransformers lib) [] fs).2 = [] then
          applyFieldTransforms (builtinTransformers lib) acc fd
            (.vstruct (transformStruct (builtinTransformers lib) [] fs).1)
        else
          (.vstruct (transformStruct (builtinTransformers lib) [] fs).1,
            mergePrefixed acc (fd.name ++ ".")
              (transformStruct (builtinTransformers lib) [] fs).2) := rfl
    rw [e1, hs1, if_pos rfl, applyFieldTransforms_builtin lib,
      applyTransformations_vstruct lib fd _]
    refine ⟨rfl, ?_⟩
    dsimp only
    have e2 : transformField (builtinTransformers lib) acc fd
        (.vstruct (transformStruct (builtinTransformers lib) [] fs).1) =
        if (transformStruct (builtinTransformers lib) []
            (transformStruct (builtinTransformers lib) [] fs).1).2 = [] then
          applyFieldTransforms (builtinTransformers lib) acc fd
            (.vstruct (transformStruct (builtinTransformers lib) []
              (transformStruct (builtinTransformers lib) [] fs).1).1)
        else
          (.vstruct (transformStruct (builtinTransformers lib) []
            (transformStruct (builtinTransformers lib) [] fs).1).1,
            mergePrefixed acc (fd.name ++ ".")
              (transformStruct (builtinTransformers lib) []
                (transformStruct (builtinTransformers lib) [] fs).1).2) := rfl
    rw [e2, hs2]
    dsimp only
    rw [if_pos rfl, applyFieldTransforms_builtin lib,
      applyTransformations_vstruct lib fd _]
  | .vptr (.vstruct fs), acc, fd => by
    obtain ⟨hs1, hs2⟩ := transformStruct_builtin_idem lib h fs []
    have e1 : transformField (builtinTransformers lib) acc fd (.vptr (.vstruct fs)) =
        if (transformStruct (builtinTransformers lib) [] fs).2 = [] then
          applyFieldTransforms (builtinTransformers lib) acc fd
            (.vptr (.vstruct (transformStruct (builtinTransformers lib) [] fs).1))
        else
          (.vptr (.vstruct (transformStruct (builtinTransformers lib) [] fs).1),
            mergePrefixed acc (fd.name ++ ".")
              (transformStruct (builtinTransformers lib) [] fs).2) := rfl
    rw [e1, hs1, if_pos rfl, applyFieldTransforms_builtin lib,
      applyTransformations_vptr lib fd _]
    refine ⟨rfl, ?_⟩
    dsimp only
    have e2 : transformField (builtinTransformers lib) acc fd
        (.vptr (.vstruct (transformStruct (builtinTransformers lib) [] fs).1)) =
        if (transformStruct (builtinTransformers lib) []
            (transformStruct (builtinTransformers lib) [] fs).1).2 = [] then
          applyFieldTransforms (builtinTransformers lib) acc fd
            (.vptr (.vstruct (transformStruct (builtinTransformers lib) []
              (transformStruct (builtinTransformers lib) [] fs).1).1))
        else
          (.vptr (.vstruct (transformStruct (builtinTransformers lib) []
            (transformStruct (builtinTransformers lib) [] fs).1).1),
            mergePrefixed acc (fd.name ++ ".")
              (transformStruct (builtinTransformers lib) []
                (transformStruct (builtinTransformers lib) [] fs).1).2) := rfl
    rw [e2, hs2]
    dsimp only
    rw [if_pos rfl, applyFieldTransforms_builtin lib,
      applyTransformations_vptr lib fd _]
  | .vslice es, acc, fd => by
    obtain ⟨he1, he2⟩ := transformElems_builtin_idem lib h es acc fd.name 0
    have e1 : transformField (builtinTransformers lib) acc fd (.vslice es) =
        applyFieldTransforms (builtinTransformers lib)
          (transformElems (builtinTransformers lib) fd.name 0 acc es).2 fd
          (.vslice (transformElems (builtinTransformers lib) fd.name 0 acc es).1) := rfl
    rw [e1, he1, applyFieldTransforms_builtin lib,
      applyTransformations_vslice lib fd _]
    refine ⟨rfl, ?_⟩
    dsimp only
    have e2 : transformField (builtinTransformers lib) acc fd
        (.vslice (transformElems (builtinTransformers lib) fd.name 0 acc es).1) =
        applyFieldTransforms (builtinTransformers lib)
          (transformElems (builtinTransformers lib) fd.name 0 acc
            (transformElems (builtinTransformers lib) fd.name 0 acc es).1).2 fd
          (.vslice (transformElems (builtinTransformers lib) fd.name 0 acc
            (transformElems (builtinTransformers lib) fd.name 0 acc es).1).1) := rfl
    rw [e2, he2]
    dsimp only
    rw [applyFieldTransforms_builtin lib, applyTransformations_vslice lib fd _]
  | .vstring s, acc, fd => transformField_atom lib h acc fd _ rfl
  | .vint n, acc, fd => transformField_atom lib h acc fd _ rfl
  | .vuint n, acc, fd => transformField_atom lib h acc fd _ rfl
  | .vbool b, acc, fd => transformField_atom lib h acc fd _ rfl
  | .vfloat q, acc, fd => transformField_atom lib h acc fd _ rfl
  | .vptrNil, acc, fd => transformField_atom lib h acc fd _ rfl
  | .vptr (.vstring s), acc, fd => transformField_atom lib h acc fd _ rfl
  | .vptr (.vint n), acc, fd => transformField_atom lib h acc fd _ rfl
  | .vptr (.vuint n), acc, fd => transformField_atom lib h acc fd _ rfl
  | .vptr (.vbool b), acc, fd => transformField_atom lib h acc fd _ rfl
  | .vptr (.vfloat q), acc, fd => transformField_atom lib h acc fd _ rfl
  | .vptr .vptrNil, acc, fd => transformField_atom lib h acc fd _ rfl
  | .vptr (.vptr w), acc, fd => transformField_atom lib h acc fd _ rfl
  | .vptr .vmap, acc, fd => transformField_atom lib h acc fd _ rfl
  | .vptr (.vslice es), acc, fd => transformField_atom lib h acc fd _ rfl
  | .vptr (.varray es), acc, fd => transformField_atom lib h acc fd _ rfl
  | .vmap, acc, fd => transformField_atom lib h acc fd _ rfl
  | .varray es, acc, fd => transformField_atom lib h acc fd _ rfl

theorem transformElems_builtin_idem (lib : GoLib) (h : CaseMapOk lib) :
    ∀ (es : Elems) (acc : VMap) (name : String) (j : Nat),
      (transformElems (builtinTransformers lib) name j acc es).2 = acc ∧
        transformElems (builtinTransformers lib) name j acc
            (transformElems (builtinTransformers lib) name j acc es).1 =
          ((transformElems (builtinTransformers lib) name j acc es).1, acc)
  | .nil, acc, name, j => ⟨rfl, rfl⟩
  | .cons (.vstruct fs) rest, acc, name, j => by
    obtain ⟨hs1, hs2⟩ := transformStruct_builtin_idem lib h fs []
    obtain ⟨hr1, hr2⟩ := transformElems_builtin_idem lib h rest acc name (j + 1)
    have e1 : transformElems (builtinTransformers lib) name j acc
        (.cons (.vstruct fs) rest) =
        (.cons (.vstruct (transformStruct (builtinTransformers lib) [] fs).1)
          (transformElems (builtinTransformers lib) name (j + 1)
            (mergePrefixed acc (name ++ "[" ++ toString j ++ "].")
              (transformStruct (builtinTransformers lib) [] fs).2) rest).1,
          (transformElems (builtinTransformers lib) name (j + 1)
            (mergePrefixed acc (name ++ "[" ++ toString j ++ "].")
              (transformStruct (builtinTransformers lib) [] fs).2) rest).2) := rfl
    rw [e1, hs1, mergePrefixed_nil]
    refine ⟨hr1, ?_⟩
    have e2 : transformElems (builtinTransformers lib) name j acc
        (.cons (.vstruct (transformStruct (builtinTransformers lib) [] fs).1)
          (transformElems (builtinTransformers lib) name (j + 1) acc rest).1) =
        (.cons (.vstruct (transformStruct (builtinTransformers lib) []
            (transformStruct (builtinTransformers lib) [] fs).1).1)
          (transformElems (builtinTransformers lib) name (j + 1)
            (mergePrefixed acc (name ++ "[" ++ toString j ++ "].")
              (transformStruct (builtinTransformers lib) []
                (transformStruct (builtinTransformers lib) [] fs).1).2)
            (transformElems (builtinTransformers lib) name (j + 1) acc rest).1).1,
          (transformElems (builtinTransformers lib) name (j + 1)
            (mergePrefixed acc (name ++ "[" ++ toString j ++ "].")
              (transformStruct (builtinTransformers lib) []
                (transformStruct (builtinTransformers lib) [] fs).1).2)
            (transformElems (builtinTransformers lib) name (j + 1) acc rest).1).2) := rfl
    rw [e2, hs2]
    dsimp only
    rw [mergePrefixed_nil, hr2]
  | .cons (.vstring s) rest, acc, name, j =>
    transformElems_cons_idem_notstruct lib h (.vstring s) rest acc name j rfl
  | .cons (.vint n) rest, acc, name, j =>
    transformElems_cons_idem_notstruct lib h (.vint n) rest acc name j rfl
  | .cons (.vuint n) rest, acc, name, j =>
    transformElems_cons_idem_notstruct lib h (.vuint n) rest acc name j rfl
  | .cons (.vbool b) rest, acc, name, j =>
    transformElems_cons_idem_notstruct lib h (.vbool b) rest acc name j rfl
  | .cons (.vfloat q) rest, acc, name, j =>
    transformElems_cons_idem_notstruct lib h (.vfloat q) rest acc name j rfl
  | .cons .vptrNil rest, acc, name, j =>
    transformElems_cons_idem_notstruct lib h .vptrNil rest acc name j rfl
  | .cons (.vptr w) rest, acc, name, j =>
    transformElems_cons_idem_notstruct lib h (.vptr w) rest acc name j rfl
  | .cons .vmap rest, acc, name, j =>
    transformElems_cons_idem_notstruct lib h .vmap rest acc name j rfl
  | .cons (.vslice es') rest, acc, name, j =>
    transformElems_cons_idem_notstruct lib h (.vslice es') rest acc name j rfl
  | .cons (.varray es') rest, acc, name, j =>
    transformElems_cons_idem_notstruct lib h (.varray es') rest acc name j rfl

theorem transformElems_cons_idem_notstruct (lib : GoLib) (h : CaseMapOk lib)
    (v : Value) (rest : Elems) (acc : VMap) (name : String) (j : Nat)
    (hv : isStructV v = false) :
    (transformElems (builtinTransformers lib) name j acc (.cons v rest)).2 = acc ∧
      transformElems (builtinTransformers lib) name j acc
          (transformElems (builtinTransformers lib) name j acc (.cons v rest)).1 =
        ((transformElems (builtinTransformers lib) name j acc (.cons v rest)).1, acc) := by
  obtain ⟨hr1, hr2⟩ := transformElems_builtin_idem lib h rest acc name (j + 1)
  rw [transformElems_cons_notstruct _ _ _ _ _ _ hv]
  refine ⟨hr1, ?_⟩
  try dsimp only
  rw [transformElems_cons_notstruct _ _ _ _ _ _ hv]
  try dsimp only
  rw [hr2]

end

/-! ### Lemmas: the violations map -/

theorem string_append_left_cancel (pre a b : String) (h : pre ++ a = pre ++ b) :
    a = b := by
  have hd : (pre ++ a).data = (pre ++ b).data := by rw [h]
  rw [String.data_append, String.data_append] at hd
  have := List.append_cancel_left hd
  cases a
  cases b
  exact congrArg String.mk (by simpa using this)

theorem mem_vmapKeys_vmapSet (m : VMap) (k : String) (v : List String)
    (a : String) : a ∈ vmapKeys (vmapSet m k v) ↔ a ∈ vmapKeys m ∨ a = k := by
  induction m with
  | nil => simp [vmapSet, vmapKeys]
  | cons p rest ih =>
    obtain ⟨k', v'⟩ := p
    by_cases h : k' = k
    · subst h
      have e : vmapSet ((k', v') :: rest) k' v = (k', v) :: rest := by
        show (if k' = k' then (k', v) :: rest else (k', v') :: vmapSet rest k' v) =
          (k', v) :: rest
        rw [if_pos rfl]
      rw [e]
      simp only [vmapKeys, List.map_cons, List.mem_cons]
      tauto
    · simp only [vmapSet, if_neg h, vmapKeys, List.map_cons, List.mem_cons]
      rw [show List.map Prod.fst (vmapSet rest k v) = vmapKeys (vmapSet rest k v) from rfl,
        ih]
      tauto

theorem nodup_vmapKeys_vmapSet (m : VMap) (k : String) (v : List String)
    (h : (vmapKeys m).Nodup) : (vmapKeys (vmapSet m k v)).Nodup := by
  induction m with
  | nil => simp [vmapSet, vmapKeys]
  | cons p rest ih =>
    obtain ⟨k', v'⟩ := p
    simp only [vmapKeys, List.map_cons, List.nodup_cons] at h
    by_cases hk : k' = k
    · subst hk
      simpa [vmapSet, vmapKeys, List.nodup_cons] using h
    · simp only [vmapSet, if_neg hk, vmapKeys, List.map_cons, List.nodup_cons]
      refine ⟨?_, ih h.2⟩
      intro hmem
      rw [show List.map Prod.fst (vmapSet rest k v) = vmapKeys (vmapSet rest k v) from rfl,
        mem_vmapKeys_vmapSet] at hmem
      rcases hmem with hmem | rfl
      · exact h.1 hmem
      · exact hk rfl

theorem nodup_vmapKeys_vmapAppend (m : VMap) (k msg : String)
    (h : (vmapKeys m).Nodup) : (vmapKeys (vmapAppend m k msg)).Nodup :=
  nodup_vmapKeys_vmapSet m k _ h

theorem nodup_vmapKeys_mergePrefixed (vio : VMap) (acc : VMap) (pre : String)
    (h : (vmapKeys acc).Nodup) : (vmapKeys (mergePrefixed acc pre vio)).Nodup := by
  induction vio generalizing acc with
  | nil => exact h
  | cons p rest ih =>
    exact ih _ (nodup_vmapKeys_vmapSet acc (pre ++ p.1) p.2 h)

theorem vmapSet_not_mem (m : VMap) (k : String) (v : List String)
    (h : k ∉ vmapKeys m) : vmapSet m k v = m ++ [(k, v)] := by
  induction m with
  | nil => rfl
  | cons p rest ih =>
    obtain ⟨k', v'⟩ := p
    simp only [vmapKeys, List.map_cons, List.mem_cons] at h
    push_neg at h
    rw [vmapSet, if_neg (fun hc => h.1 hc.symm), ih h.2]
    rfl

theorem mergePrefixed_disjoint (pre : String) :
    ∀ (vio acc : VMap), (vmapKeys vio).Nodup →
      (∀ k ∈ vmapKeys vio, (pre ++ k) ∉ vmapKeys acc) →
      mergePrefixed acc pre vio = acc ++ vio.map (fun p => (pre ++ p.1, p.2)) := by
  intro vio
  induction vio with
  | nil => intro acc _ _; simp [mergePrefixed]
  | cons p rest ih =>
    intro acc hnd hdis
    obtain ⟨k, v⟩ := p
    simp only [vmapKeys, List.map_cons, List.nodup_cons] at hnd
    have hstep : mergePrefixed acc pre ((k, v) :: rest) =
        mergePrefixed (vmapSet acc (pre ++ k) v) pre rest := rfl
    rw [hstep, vmapSet_not_mem acc (pre ++ k) v
      (hdis k (List.mem_cons_self k (vmapKeys rest)))]
    rw [ih (acc ++ [(pre ++ k, v)]) hnd.2 ?_]
    · simp
    · intro k' hk'
      rw [show vmapKeys (acc ++ [(pre ++ k, v)]) = vmapKeys acc ++ [pre ++ k] from by
        simp [vmapKeys]]
      simp only [List.mem_append, List.mem_singleton]
      push_neg
      refine ⟨hdis k' (List.mem_cons_of_mem k hk'), ?_⟩
      intro hc
      exact hnd.1 (string_append_left_cancel pre k' k hc ▸ hk')

theorem mergePrefixed_fresh (pre : String) (vio : VMap)
    (h : (vmapKeys vio).Nodup) :
    mergePrefixed [] pre vio = vio.map (fun p => (pre ++ p.1, p.2)) := by
  rw [mergePrefixed_disjoint pre vio [] h (by simp [vmapKeys])]
  rfl

theorem nodup_applyFieldTransforms (reg : String → Option TransformFunc)
    (acc : VMap) (fd : FieldDecl) (v : Value) (h : (vmapKeys acc).Nodup) :
    (vmapKeys (applyFieldTransforms reg acc fd v).2).Nodup := by
  unfold applyFieldTransforms
  split
  · exact h
  · exact nodup_vmapKeys_vmapAppend _ _ _ h

mutual

theorem transformStruct_nodup (reg : String → Option TransformFunc) :
    ∀ (fs : Fields) (acc : VMap), (vmapKeys acc).Nodup →
      (vmapKeys (transformStruct reg acc fs).2).Nodup
  | .nil, _, h => h
  | .cons fd v rest, acc, h => by
    have h1 := transformField_nodup reg v acc fd h
    have e1 : (transformStruct reg acc (.cons fd v rest)).2 =
        (transformStruct reg (transformField reg acc fd v).2 rest).2 := rfl
    rw [e1]
    exact transformStruct_nodup reg rest _ h1

theorem transformField_nodup (reg : String → Option TransformFunc) :
    ∀ (v : Value) (acc : VMap) (fd : FieldDecl), (vmapKeys acc).Nodup →
      (vmapKeys (transformField reg acc fd v).2).Nodup
  | .vstruct fs, acc, fd, h => by
    have e1 : transformField reg acc fd (.vstruct fs) =
        if (transformStruct reg [] fs).2 = [] then
          applyFieldTransforms reg acc fd (.vstruct (transformStruct reg [] fs).1)
        else
          (.vstruct (transformStruct reg [] fs).1,
            mergePrefixed acc (fd.name ++ ".") (transformStruct reg [] fs).2) := rfl
    rw [e1]
    split
    · exact nodup_applyFieldTransforms reg acc fd _ h
    · exact nodup_vmapKeys_mergePrefixed _ _ _ h
  | .vptr (.vstruct fs), acc, fd, h => by
    have e1 : transformField reg acc fd (.vptr (.vstruct fs)) =
        if (transformStruct reg [] fs).2 = [] then
          applyFieldTransforms reg acc fd (.vptr (.vstruct (transformStruct reg [] fs).1))
        else
          (.vptr (.vstruct (transformStruct reg [] fs).1),
            mergePrefixed acc (fd.name ++ ".") (transformStruct reg [] fs).2) := rfl
    rw [e1]
    split
    · exact nodup_applyFieldTransforms reg acc fd _ h
    · exact nodup_vmapKeys_mergePrefixed _ _ _ h
  | .vslice es, acc, fd, h => by
    have e1 : transformField reg acc fd (.vslice es) =
        applyFieldTransforms reg (transformElems reg fd.name 0 acc es).2 fd
          (.vslice (transformElems reg fd.name 0 acc es).1) := rfl
    rw [e1]
    exact nodup_applyFieldTransforms reg _ fd _
      (transformElems_nodup reg es acc fd.name 0 h)
  | .vstring s, acc, fd, h => nodup_applyFieldTransforms reg acc fd _ h
  | .vint n, acc, fd, h => nodup_applyFieldTransforms reg acc fd _ h
  | .vuint n, acc, fd, h => nodup_applyFieldTransforms reg acc fd _ h
  | .vbool b, acc, fd, h => nodup_applyFieldTransforms reg acc fd _ h
  | .vfloat q, acc, fd, h => nodup_applyFieldTransforms reg acc fd _ h
  | .vptrNil, acc, fd, h => nodup_applyFieldTransforms reg acc fd _ h
  | .vptr (.vstring s), acc, fd, h => nodup_applyFieldTransforms reg acc fd _ h
  | .vptr (.vint n), acc, fd, h => nodup_applyFieldTransforms reg acc fd _ h
  | .vptr (.vuint n), acc, fd, h => nodup_applyFieldTransforms reg acc fd _ h
  | .vptr (.vbool b), acc, fd, h => nodup_applyFieldTransforms reg acc fd _ h
  | .vptr (.vfloat q), acc, fd, h => nodup_applyFieldTransforms reg acc fd _ h
  | .vptr .vptrNil, acc, fd, h => nodup_applyFieldTransforms reg acc fd _ h
  | .vptr (.vptr w), acc, fd, h => nodup_applyFieldTransforms reg acc fd _ h
  | .vptr .vmap, acc, fd, h => nodup_applyFieldTransforms reg acc fd _ h
  | .vptr (.vslice es), acc, fd, h => nodup_applyFieldTransforms reg acc fd _ h
  | .vptr (.varray es), acc, fd, h => nodup_applyFieldTransforms reg acc fd _ h
  | .vmap, acc, fd, h => nodup_applyFieldTransforms reg acc fd _ h
  | .varray es, acc, fd, h => nodup_applyFieldTransforms reg acc fd _ h

theorem transformElems_nodup (reg : String → Option TransformFunc) :
    ∀ (es : Elems) (acc : VMap) (name : String) (j : Nat), (vmapKeys acc).Nodup →
      (vmapKeys (transformElems reg name j acc es).2).Nodup
  | .nil, _, _, _, h => h
  | .cons (.vstruct fs) rest, acc, name, j, h => by
    have e1 : (transformElems reg name j acc (.cons (.vstruct fs) rest)).2 =
        (transformElems reg name (j + 1)
          (mergePrefixed acc (name ++ "[" ++ toString j ++ "].")
            (transformStruct reg [] fs).2) rest).2 := rfl
    rw [e1]
    exact transformElems_nodup reg rest _ name (j + 1)
      (nodup_vmapKeys_mergePrefixed _ _ _ h)
  | .cons (.vstring s) rest, acc, name, j, h =>
    transformElems_nodup_notstruct reg (.vstring s) rest acc name j rfl h
  | .cons (.vint n) rest, acc, name, j, h =>
    transformElems_nodup_notstruct reg (.vint n) rest acc name j rfl h
  | .cons (.vuint n) rest, acc, name, j, h =>
    transformElems_nodup_notstruct reg (.vuint n) rest acc name j rfl h
  | .cons (.vbool b) rest, acc, name, j, h =>
    transformElems_nodup_notstruct reg (.vbool b) rest acc name j rfl h
  | .cons (.vfloat q) rest, acc, name, j, h =>
    transformElems_nodup_notstruct reg (.vfloat q) rest acc name j rfl h
  | .cons .vptrNil rest, acc, name, j, h =>
    transformElems_nodup_notstruct reg .vptrNil rest acc name j rfl h
  | .cons (.vptr w) rest, acc, name, j, h =>
    transformElems_nodup_notstruct reg (.vptr w) rest acc name j rfl h
  | .cons .vmap rest, acc, name, j, h =>
    transformElems_nodup_notstruct reg .vmap rest acc name j rfl h
  | .cons (.vslice es') rest, acc, name, j, h =>
    transformElems_nodup_notstruct reg (.vslice es') rest acc name j rfl h
  | .cons (.varray es') rest, acc, name, j, h =>
    transformElems_nodup_notstruct reg (.varray es') rest acc name j rfl h

theorem transformElems_nodup_notstruct (reg : String → Option TransformFunc)
    (v : Value) (rest : Elems) (acc : VMap) (name : String) (j : Nat)
    (hv : isStructV v = false) (h : (vmapKeys acc).Nodup) :
    (vmapKeys (transformElems reg name j acc (.cons v rest)).2).Nodup := by
  rw [transformElems_cons_notstruct reg name j acc v rest hv]
  exact transformElems_nodup reg rest acc name (j + 1) h

end

/-! ### Lemmas: nested-failure path construction -/

theorem transformField_struct_fail (reg : String → Option TransformFunc)
    (acc : VMap) (fd : FieldDecl) (fs : Fields)
    (hne : (transformStruct reg [] fs).2 ≠ []) :
    transformField reg acc fd (.vstruct fs) =
      (.vstruct (transformStruct reg [] fs).1,
        mergePrefixed acc (fd.name ++ ".") (transformStruct reg [] fs).2) := by
  have e1 : transformField reg acc fd (.vstruct fs) =
      if (transformStruct reg [] fs).2 = [] then
        applyFieldTransforms reg acc fd (.vstruct (transformStruct reg [] fs).1)
      else
        (.vstruct (transformStruct reg [] fs).1,
          mergePrefixed acc (fd.name ++ ".") (transformStruct reg [] fs).2) := rfl
  rw [e1, if_neg hne]

theorem transform_struct_field_keys (reg : String → Option TransformFunc)
    (n vt tt : String) (inner : Fields)
    (hne : (transformStruct reg [] inner).2 ≠ []) :
    Transform reg (.cons ⟨n, vt, tt⟩ (.vstruct inner) .nil) =
      (.cons ⟨n, vt, tt⟩ (.vstruct (transformStruct reg [] inner).1) .nil,
        some ⟨"transformation failed",
          ((transformStruct reg [] inner).2).map (fun p => (n ++ "." ++ p.1, p.2))⟩) := by
  have hnd : (vmapKeys (transformStruct reg [] inner).2).Nodup :=
    transformStruct_nodup reg inner [] (by simp [vmapKeys])
  have hfield := transformField_struct_fail reg [] ⟨n, vt, tt⟩ inner hne
  have e1 : transformStruct reg [] (.cons (⟨n, vt, tt⟩ : FieldDecl) (.vstruct inner) .nil) =
      (.cons ⟨n, vt, tt⟩ (transformField reg [] ⟨n, vt, tt⟩ (.vstruct inner)).1 .nil,
        (transformField reg [] ⟨n, vt, tt⟩ (.vstruct inner)).2) := rfl
  unfold Transform
  rw [e1, hfield]
  dsimp only
  rw [mergePrefixed_fresh _ _ hnd]
  rw [if_neg (by simpa using hne)]

theorem applyFieldTransforms_empty_tag (reg : String → Option TransformFunc)
    (acc : VMap) (n vt : String) (v : Value) :
    applyFieldTransforms reg acc ⟨n, vt, ""⟩ v = (v, acc) := rfl

theorem transform_slice_field_keys (reg : String → Option TransformFunc)
    (n vt : String) (inner : Fields)
    (hne : (transformStruct reg [] inner).2 ≠ []) :
    Transform reg (.cons ⟨n, vt, ""⟩ (.vslice (.cons (.vstruct inner) .nil)) .nil) =
      (.cons ⟨n, vt, ""⟩
        (.vslice (.cons (.vstruct (transformStruct reg [] inner).1) .nil)) .nil,
        some ⟨"transformation failed",
          ((transformStruct reg [] inner).2).map (fun p => (n ++ "[0]." ++ p.1, p.2))⟩) := by
  have hnd : (vmapKeys (transformStruct reg [] inner).2).Nodup :=
    transformStruct_nodup reg inner [] (by simp [vmapKeys])
  have hpre : (n ++ "[" ++ toString (0 : Nat) ++ "].") = n ++ "[0]." := by
    rw [String.append_assoc, String.append_assoc]
    congr 1
  have e2 : transformElems reg n 0 [] (.cons (.vstruct inner) .nil) =
      (.cons (.vstruct (transformStruct reg [] inner).1) .nil,
        mergePrefixed [] (n ++ "[" ++ toString (0 : Nat) ++ "].")
          (transformStruct reg [] inner).2) := rfl
  have e3 : transformStruct reg []
      (.cons (⟨n, vt, ""⟩ : FieldDecl) (.vslice (.cons (.vstruct inner) .nil)) .nil) =
      (.cons ⟨n, vt, ""⟩
        (transformField reg [] ⟨n, vt, ""⟩ (.vslice (.cons (.vstruct inner) .nil))).1 .nil,
        (transformField reg [] ⟨n, vt, ""⟩ (.vslice (.cons (.vstruct inner) .nil))).2) := rfl
  have e4 : transformField reg [] (⟨n, vt, ""⟩ : FieldDecl)
      (.vslice (.cons (.vstruct inner) .nil)) =
      applyFieldTransforms reg
        (transformElems reg n 0 [] (.cons (.vstruct inner) .nil)).2 ⟨n, vt, ""⟩
        (.vslice (transformElems reg n 0 [] (.cons (.vstruct inner) .nil)).1) := rfl
  unfold Transform
  rw [e3, e4, e2]
  dsimp only
  rw [applyFieldTransforms_empty_tag, hpre, mergePrefixed_fresh _ _ hnd]
  dsimp only
  rw [if_neg (by simpa using hne)]

theorem transformField_ptr_fail (reg : String → Option TransformFunc)
    (acc : VMap) (fd : FieldDecl) (fs : Fields)
    (hne : (transformStruct reg [] fs).2 ≠ []) :
    transformField reg acc fd (.vptr (.vstruct fs)) =
      (.vptr (.vstruct (transformStruct reg [] fs).1),
        mergePrefixed acc (fd.name ++ ".") (transformStruct reg [] fs).2) := by
  have e1 : transformField reg acc fd (.vptr (.vstruct fs)) =
      if (transformStruct reg [] fs).2 = [] then
        applyFieldTransforms reg acc fd (.vptr (.vstruct (transformStruct reg [] fs).1))
      else
        (.vptr (.vstruct (transformStruct reg [] fs).1),
          mergePrefixed acc (fd.name ++ ".") (transformStruct reg [] fs).2) := rfl
  rw [e1, if_neg hne]

theorem transformField_struct_ok (reg : String → Option TransformFunc)
    (acc : VMap) (fd : FieldDecl) (fs : Fields)
    (hok : (transformStruct reg [] fs).2 = []) :
    transformField reg acc fd (.vstruct fs) =
      applyFieldTransforms reg acc fd (.vstruct (transformStruct reg [] fs).1) := by
  have e1 : transformField reg acc fd (.vstruct fs) =
      if (transformStruct reg [] fs).2 = [] then
        applyFieldTransforms reg acc fd (.vstruct (transformStruct reg [] fs).1)
      else
        (.vstruct (transformStruct reg [] fs).1,
          mergePrefixed acc (fd.name ++ ".") (transformStruct reg [] fs).2) := rfl
  rw [e1, if_pos hok]

theorem transformField_ptr_ok (reg : String → Option TransformFunc)
    (acc : VMap) (fd : FieldDecl) (fs : Fields)
    (hok : (transformStruct reg [] fs).2 = []) :
    transformField reg acc fd (.vptr (.vstruct fs)) =
      applyFieldTransforms reg acc fd (.vptr (.vstruct (transformStruct reg [] fs).1)) := by
  have e1 : transformField reg acc fd (.vptr (.vstruct fs)) =
      if (transformStruct reg [] fs).2 = [] then
        applyFieldTransforms reg acc fd (.vptr (.vstruct (transformStruct reg [] fs).1))
      else
        (.vptr (.vstruct (transformStruct reg [] fs).1),
          mergePrefixed acc (fd.name ++ ".") (transformStruct reg [] fs).2) := rfl
  rw [e1, if_pos hok]

theorem transform_ptr_field_keys (reg : String → Option TransformFunc)
    (n vt tt : String) (inner : Fields)
    (hne : (transformStruct reg [] inner).2 ≠ []) :
    Transform reg (.cons ⟨n, vt, tt⟩ (.vptr (.vstruct inner)) .nil) =
      (.cons ⟨n, vt, tt⟩ (.vptr (.vstruct (transformStruct reg [] inner).1)) .nil,
        some ⟨"transformation failed",
          ((transformStruct reg [] inner).2).map (fun p => (n ++ "." ++ p.1, p.2))⟩) := by
  have hnd : (vmapKeys (transformStruct reg [] inner).2).Nodup :=
    transformStruct_nodup reg inner [] (by simp [vmapKeys])
  have hfield := transformField_ptr_fail reg [] ⟨n, vt, tt⟩ inner hne
  have e1 : transformStruct reg []
      (.cons (⟨n, vt, tt⟩ : FieldDecl) (.vptr (.vstruct inner)) .nil) =
      (.cons ⟨n, vt, tt⟩ (transformField reg [] ⟨n, vt, tt⟩ (.vptr (.vstruct inner))).1 .nil,
        (transformField reg [] ⟨n, vt, tt⟩ (.vptr (.vstruct inner))).2) := rfl
  unfold Transform
  rw [e1, hfield]
  dsimp only
  rw [mergePrefixed_fresh _ _ hnd]
  rw [if_neg (by simpa using hne)]

/-! ### Lemmas: unknown tag tokens are skipped -/

/-- The loop body of validateField over the tag's tokens, named: look the
token's rule name up, skip unknown names, collect non-empty results. -/
def validateTok (rules : String → Option ValidationRule) (fd : FieldDecl)
    (v : Value) (a : VMap) (tok : String) : VMap :=
  match rules (ruleNameOf tok) with
  | none => a
  | some r =>
    let errs := r v fd
    if errs = [] then a else vmapSet a fd.name (vmapGet a fd.name ++ errs)

theorem validateTok_unknown (rules : String → Option ValidationRule)
    (fd : FieldDecl) (v : Value) (a : VMap) (tok : String)
    (h : rules (ruleNameOf tok) = none) : validateTok rules fd v a tok = a := by
  unfold validateTok
  rw [h]

theorem foldl_validateTok_skip (rules : String → Option ValidationRule)
    (fd : FieldDecl) (v : Value) (acc : VMap) (toks1 toks2 : List String)
    (tok : String) (h : rules (ruleNameOf tok) = none) :
    (toks1 ++ tok :: toks2).foldl (validateTok rules fd v) acc =
      (toks1 ++ toks2).foldl (validateTok rules fd v) acc := by
  rw [List.foldl_append, List.foldl_append, List.foldl_cons,
    validateTok_unknown rules fd v _ tok h]

theorem validateField_eq_foldl (rules : String → Option ValidationRule)
    (acc : VMap) (fd : FieldDecl) (v : Value) (h : fd.vtag ≠ "") :
    validateField rules acc fd v =
      (stringsFieldsS fd.vtag).foldl (validateTok rules fd v) acc := by
  unfold validateField
  rw [if_neg h]
  rfl

theorem applyTransformList_skip (reg : String → Option TransformFunc)
    (l1 l2 : List String) (t : String) :
    ∀ v : Value, reg t = none →
      applyTransformList reg (l1 ++ t :: l2) v =
        applyTransformList reg (l1 ++ l2) v := by
  have e1 : ∀ (hd : String) (l : List String) (v : Value),
      applyTransformList reg (hd :: l) v =
        match reg hd with
        | none => applyTransformList reg l v
        | some fn =>
          match fn v with
          | (v', none) => applyTransformList reg l v'
          | (v', some e) => (v', some e) := fun _ _ _ => rfl
  induction l1 with
  | nil =>
    intro v h
    show applyTransformList reg (t :: l2) v = applyTransformList reg l2 v
    rw [e1, h]
  | cons hd l1 ih =>
    intro v h
    show applyTransformList reg (hd :: (l1 ++ t :: l2)) v =
      applyTransformList reg (hd :: (l1 ++ l2)) v
    rw [e1, e1]
    cases reg hd with
    | none => exact ih v h
    | some fn =>
      dsimp only
      cases hfn : fn v with
      | mk v' eo =>
        cases eo with
        | none => exact ih v' h
        | some msg => rfl

theorem applyTransformations_nonempty_tag (reg : String → Option TransformFunc)
    (fd : FieldDecl) (v : Value) (h : fd.ttag ≠ "") :
    applyTransformations reg fd v =
      applyTransformList reg (orderTransforms (stringsFieldsS fd.ttag)) v := by
  unfold applyTransformations
  rw [if_neg h]

/-! ### Lemmas: shallowness of validation -/

theorem minRule_congr (fd : FieldDecl) (v v' : Value)
    (hc : ∀ m : Int, minLenCheck m v = minLenCheck m v') :
    minRule v fd = minRule v' fd := by
  unfold minRule
  cases findRuleParam "min=" fd.vtag with
  | none => dsimp only; exact hc 0
  | some s =>
    dsimp only
    cases goAtoi s with
    | none => rfl
    | some m => dsimp only; exact hc m

theorem maxRule_congr (fd : FieldDecl) (v v' : Value)
    (hc : ∀ m : Int, maxLenCheck m v = maxLenCheck m v') :
    maxRule v fd = maxRule v' fd := by
  unfold maxRule
  cases findRuleParam "max=" fd.vtag with
  | none => dsimp only; exact hc 0
  | some s =>
    dsimp only
    cases goAtoi s with
    | none => rfl
    | some m => dsimp only; exact hc m

theorem minValueRule_congr (lib : GoLib) (fd : FieldDecl) (v v' : Value)
    (hc : ∀ m : Rat, minValCheck lib m v = minValCheck lib m v') :
    minValueRule lib v fd = minValueRule lib v' fd := by
  unfold minValueRule
  cases findRuleParam "min_value=" fd.vtag with
  | none => dsimp only; exact hc 0
  | some s =>
    dsimp only
    cases lib.parseFloat s with
    | none => rfl
    | some m => dsimp only; exact hc m

theorem maxValueRule_congr (lib : GoLib) (fd : FieldDecl) (v v' : Value)
    (hc : ∀ m : Rat, maxValCheck lib m v = maxValCheck lib m v') :
    maxValueRule lib v fd = maxValueRule lib v' fd := by
  unfold maxValueRule
  cases findRuleParam "max_value=" fd.vtag with
  | none => dsimp only; exact hc 0
  | some s =>
    dsimp only
    cases lib.parseFloat s with
    | none => rfl
    | some m => dsimp only; exact hc m

/-- Every built-in rule reads a nested aggregate only through its own
kind and, for slices/arrays, its length: the contents of a struct (or of
the struct behind a pointer) and the elements of a slice beyond their
number never influence the rule's result. -/
theorem builtinRules_shallow (lib : GoLib) (name : String) (r : ValidationRule)
    (h : builtinRules lib name = some r) (fd : FieldDecl) :
    (∀ inner inner', r (.vstruct inner) fd = r (.vstruct inner') fd) ∧
      (∀ w w', r (.vptr w) fd = r (.vptr w') fd) ∧
      (∀ w, r (.vptr w) fd = r .vptrNil fd) ∧
      (∀ es es', elemsLength es = elemsLength es' →
        r (.vslice es) fd = r (.vslice es') fd) := by
  unfold builtinRules at h
  by_cases hc0 : name = "required"
  · rw [if_pos hc0] at h
    obtain rfl := Option.some.inj h
    refine ⟨fun inner inner' => rfl, fun w w' => rfl, fun w => rfl,
      fun es es' hlen => ?_⟩
    simp only [requiredRule]
    rw [hlen]
  · rw [if_neg hc0] at h
    by_cases hc1 : name = "min"
    · rw [if_pos hc1] at h
      obtain rfl := Option.some.inj h
      exact ⟨fun inner inner' => minRule_congr fd _ _ (fun m => rfl),
        fun w w' => minRule_congr fd _ _ (fun m => rfl),
        fun w => minRule_congr fd _ _ (fun m => rfl),
        fun es es' hlen => minRule_congr fd _ _
          (fun m => by simp only [minLenCheck]; rw [hlen])⟩
    · rw [if_neg hc1] at h
      by_cases hc2 : name = "max"
      · rw [if_pos hc2] at h
        obtain rfl := Option.some.inj h
        exact ⟨fun inner inner' => maxRule_congr fd _ _ (fun m => rfl),
          fun w w' => maxRule_congr fd _ _ (fun m => rfl),
          fun w => maxRule_congr fd _ _ (fun m => rfl),
          fun es es' hlen => maxRule_congr fd _ _
            (fun m => by simp only [maxLenCheck]; rw [hlen])⟩
      · rw [if_neg hc2] at h
        by_cases hc3 : name = "min_value"
        · rw [if_pos hc3] at h
          obtain rfl := Option.some.inj h
          exact ⟨fun inner inner' => minValueRule_congr lib fd _ _ (fun m => rfl),
            fun w w' => minValueRule_congr lib fd _ _ (fun m => rfl),
            fun w => minValueRule_congr lib fd _ _ (fun m => rfl),
            fun es es' _ => minValueRule_congr lib fd _ _ (fun m => rfl)⟩
        · rw [if_neg hc3] at h
          by_cases hc4 : name = "max_value"
          · rw [if_pos hc4] at h
            obtain rfl := Option.some.inj h
            exact ⟨fun inner inner' => maxValueRule_congr lib fd _ _ (fun m => rfl),
              fun w w' => maxValueRule_congr lib fd _ _ (fun m => rfl),
              fun w => maxValueRule_congr lib fd _ _ (fun m => rfl),
              fun es es' _ => maxValueRule_congr lib fd _ _ (fun m => rfl)⟩
          · rw [if_neg hc4] at h
            by_cases hc5 : name = "email"
            · rw [if_pos hc5] at h
              obtain rfl := Option.some.inj h
              exact ⟨fun inner inner' => rfl, fun w w' => rfl, fun w => rfl,
                fun es es' _ => rfl⟩
            · rw [if_neg hc5] at h
              by_cases hc6 : name = "pattern"
              · rw [if_pos hc6] at h
                obtain rfl := Option.some.inj h
                exact ⟨fun inner inner' => rfl, fun w w' => rfl, fun w => rfl,
                  fun es es' _ => rfl⟩
              · rw [if_neg hc6] at h
                by_cases hc7 : name = "alphanum"
                · rw [if_pos hc7] at h
                  obtain rfl := Option.some.inj h
                  exact ⟨fun inner inner' => rfl, fun w w' => rfl, fun w => rfl,
                    fun es es' _ => rfl⟩
                · rw [if_neg hc7] at h
                  by_cases hc8 : name = "alpha"
                  · rw [if_pos hc8] at h
                    obtain rfl := Option.some.inj h
                    exact ⟨fun inner inner' => rfl, fun w w' => rfl, fun w => rfl,
                      fun es es' _ => rfl⟩
                  · rw [if_neg hc8] at h
                    by_cases hc9 : name = "no_whitespace"
                    · rw [if_pos hc9] at h
                      obtain rfl := Option.some.inj h
                      exact ⟨fun inner inner' => rfl, fun w w' => rfl, fun w => rfl,
                        fun es es' _ => rfl⟩
                    · rw [if_neg hc9] at h
                      by_cases hc10 : name = "url"
                      · rw [if_pos hc10] at h
                        obtain rfl := Option.some.inj h
                        exact ⟨fun inner inner' => rfl, fun w w' => rfl, fun w => rfl,
                          fun es es' _ => rfl⟩
                      · rw [if_neg hc10] at h
                        by_cases hc11 : name = "ipv4"
                        · rw [if_pos hc11] at h
                          obtain rfl := Option.some.inj h
                          exact ⟨fun inner inner' => rfl, fun w w' => rfl, fun w => rfl,
                            fun es es' _ => rfl⟩
                        · rw [if_neg hc11] at h
                          by_cases hc12 : name = "contains"
                          · rw [if_pos hc12] at h
                            obtain rfl := Option.some.inj h
                            exact ⟨fun inner inner' => rfl, fun w w' => rfl, fun w => rfl,
                              fun es es' _ => rfl⟩
                          · rw [if_neg hc12] at h
                            by_cases hc13 : name = "starts_with"
                            · rw [if_pos hc13] at h
                              obtain rfl := Option.some.inj h
                              exact ⟨fun inner inner' => rfl, fun w w' => rfl, fun w => rfl,
                                fun es es' _ => rfl⟩
                            · rw [if_neg hc13] at h
                              by_cases hc14 : name = "iso_date"
                              · rw [if_pos hc14] at h
                                obtain rfl := Option.some.inj h
                                exact ⟨fun inner inner' => rfl, fun w w' => rfl, fun w => rfl,
                                  fun es es' _ => rfl⟩
                              · rw [if_neg hc14] at h
                                by_cases hc15 : name = "time"
                                · rw [if_pos hc15] at h
                                  obtain rfl := Option.some.inj h
                                  exact ⟨fun inner inner' => rfl, fun w w' => rfl, fun w => rfl,
                                    fun es es' _ => rfl⟩
                                · rw [if_neg hc15] at h
                                  exact Option.noConfusion h

theorem validateField_congr (rules : String → Option ValidationRule)
    (acc : VMap) (fd : FieldDecl) (v v' : Value)
    (hv : ∀ name r, rules name = some r → r v fd = r v' fd) :
    validateField rules acc fd v = validateField rules acc fd v' := by
  unfold validateField
  split
  · rfl
  · generalize stringsFieldsS fd.vtag = toks
    induction toks generalizing acc with
    | nil => rfl
    | cons tok rest ih =>
      simp only [List.foldl_cons]
      cases hname : rules (ruleNameOf tok) with
      | none => exact ih acc
      | some r =>
        dsimp only
        rw [hv _ _ hname]
        exact ih _

theorem validateViolations_cons (rules : String → Option ValidationRule)
    (acc : VMap) (fd : FieldDecl) (v : Value) (rest : Fields) :
    validateViolations rules acc (.cons fd v rest) =
      validateViolations rules (validateField rules acc fd v) rest := rfl

theorem validateField_empty_tag (rules : String → Option ValidationRule)
    (acc : VMap) (n tt : String) (v : Value) :
    validateField rules acc ⟨n, "", tt⟩ v = acc := rfl

/-! ### Lemmas: the ASCII case mappings satisfy the case-map identities -/

theorem char_eq_of_toNat_eq (a b : Char) (h : a.toNat = b.toNat) : a = b := by
  apply Char.ext
  exact UInt32.toNat.inj h

theorem toNat_ofNat_valid (n : Nat) (h : n.isValidChar) :
    (Char.ofNat n).toNat = n := by
  rw [Char.ofNat, dif_pos h]
  rfl

theorem asciiToLower_toNat (c : Char) :
    (asciiToLower c).toNat =
      if 65 ≤ c.toNat ∧ c.toNat ≤ 90 then c.toNat + 32 else c.toNat := by
  unfold asciiToLower
  by_cases h : 65 ≤ c.toNat ∧ c.toNat ≤ 90
  · rw [if_pos h, if_pos h]
    exact toNat_ofNat_valid _ (Or.inl (by omega))
  · rw [if_neg h, if_neg h]

theorem asciiToUpper_toNat (c : Char) :
    (asciiToUpper c).toNat =
      if 97 ≤ c.toNat ∧ c.toNat ≤ 122 then c.toNat - 32 else c.toNat := by
  unfold asciiToUpper
  by_cases h : 97 ≤ c.toNat ∧ c.toNat ≤ 122
  · rw [if_pos h, if_pos h]
    exact toNat_ofNat_valid _ (Or.inl (by omega))
  · rw [if_neg h, if_neg h]

theorem asciiToLower_eq_self (c : Char) (h : ¬(65 ≤ c.toNat ∧ c.toNat ≤ 90)) :
    asciiToLower c = c := by
  rw [asciiToLower, if_neg h]

theorem asciiToUpper_eq_self (c : Char) (h : ¬(97 ≤ c.toNat ∧ c.toNat ≤ 122)) :
    asciiToUpper c = c := by
  rw [asciiToUpper, if_neg h]

theorem asciiToLower_idem (c : Char) :
    asciiToLower (asciiToLower c) = asciiToLower c := by
  by_cases h : 65 ≤ c.toNat ∧ c.toNat ≤ 90
  · refine asciiToLower_eq_self _ ?_
    rw [asciiToLower_toNat, if_pos h]
    omega
  · rw [asciiToLower_eq_self c h, asciiToLower_eq_self c h]

theorem asciiToUpper_idem (c : Char) :
    asciiToUpper (asciiToUpper c) = asciiToUpper c := by
  by_cases h : 97 ≤ c.toNat ∧ c.toNat ≤ 122
  · refine asciiToUpper_eq_self _ ?_
    rw [asciiToUpper_toNat, if_pos h]
    omega
  · rw [asciiToUpper_eq_self c h, asciiToUpper_eq_self c h]

theorem asciiUpper_lower_upper_lower (c : Char) :
    asciiToUpper (asciiToLower (asciiToUpper (asciiToLower c))) =
      asciiToUpper (asciiToLower c) := by
  by_cases h1 : 65 ≤ c.toNat ∧ c.toNat ≤ 90
  · have hl : (asciiToLower c).toNat = c.toNat + 32 := by
      rw [asciiToLower_toNat, if_pos h1]
    have hul : asciiToUpper (asciiToLower c) = c := by
      apply char_eq_of_toNat_eq
      rw [asciiToUpper_toNat, hl, if_pos (by omega)]
      omega
    rw [hul]
    exact hul
  · by_cases h2 : 97 ≤ c.toNat ∧ c.toNat ≤ 122
    · have hl : asciiToLower c = c := asciiToLower_eq_self c h1
      have hu : (asciiToUpper c).toNat = c.toNat - 32 := by
        rw [asciiToUpper_toNat, if_pos h2]
      have hlu : asciiToLower (asciiToUpper c) = c := by
        apply char_eq_of_toNat_eq
        rw [asciiToLower_toNat, hu, if_pos (by omega)]
        omega
      simp only [hl, hlu]
    · have hl : asciiToLower c = c := asciiToLower_eq_self c h1
      have hu : asciiToUpper c = c := asciiToUpper_eq_self c h2
      simp only [hl, hu]

theorem goIsSpace_asciiToLower (c : Char) :
    goIsSpace (asciiToLower c) = goIsSpace c := by
  by_cases h : 65 ≤ c.toNat ∧ c.toNat ≤ 90
  · have h2 : (asciiToLower c).toNat = c.toNat + 32 := by
      rw [asciiToLower_toNat, if_pos h]
    simp only [goIsSpace, decide_eq_decide]
    omega
  · rw [asciiToLower_eq_self c h]

theorem goIsSpace_asciiToUpper (c : Char) :
    goIsSpace (asciiToUpper c) = goIsSpace c := by
  by_cases h : 97 ≤ c.toNat ∧ c.toNat ≤ 122
  · have h2 : (asciiToUpper c).toNat = c.toNat - 32 := by
      rw [asciiToUpper_toNat, if_pos h]
    simp only [goIsSpace, decide_eq_decide]
    omega
  · rw [asciiToUpper_eq_self c h]

theorem isASCIISpaceChar_asciiToLower (c : Char) :
    isASCIISpaceChar (asciiToLower c) = isASCIISpaceChar c := by
  by_cases h : 65 ≤ c.toNat ∧ c.toNat ≤ 90
  · have h2 : (asciiToLower c).toNat = c.toNat + 32 := by
      rw [asciiToLower_toNat, if_pos h]
    simp only [isASCIISpaceChar, decide_eq_decide]
    omega
  · rw [asciiToLower_eq_self c h]

theorem isASCIISpaceChar_asciiToUpper (c : Char) :
    isASCIISpaceChar (asciiToUpper c) = isASCIISpaceChar c := by
  by_cases h : 97 ≤ c.toNat ∧ c.toNat ≤ 122
  · have h2 : (asciiToUpper c).toNat = c.toNat - 32 := by
      rw [asciiToUpper_toNat, if_pos h]
    simp only [isASCIISpaceChar, decide_eq_decide]
    omega
  · rw [asciiToUpper_eq_self c h]

/-- asciiLib's case maps satisfy the case-map identities (the Unicode
simple mappings satisfy the same identities on the full table). -/
theorem caseMapOk_asciiLib : CaseMapOk asciiLib :=
  ⟨asciiToLower_idem, asciiToUpper_idem, asciiUpper_lower_upper_lower,
    goIsSpace_asciiToLower, goIsSpace_asciiToUpper,
    isASCIISpaceChar_asciiToLower, isASCIISpaceChar_asciiToUpper⟩

/-! ### Example registries extended through AddTransformer -/

/-- The transformers registry after AddTransformer("boom", fn) registered
a custom transformer that fails with message "kaboom" (and mutates
nothing), on top of the built-ins. -/
def boomReg : String → Option TransformFunc :=
  fun name =>
    if name = "boom" then some (fun v => (v, some "kaboom"))
    else builtinTransformers asciiLib name

/-- The transformers registry after AddTransformer("mark", fn) registered
a custom transformer that overwrites any value with the string "marked",
on top of the built-ins. -/
def markReg : String → Option TransformFunc :=
  fun name =>
    if name = "mark" then some (fun _ => (.vstring "marked".toList, none))
    else builtinTransformers asciiLib name

theorem elemsLength_eq_zero_iff (es : Elems) : elemsLength es = 0 ↔ es = .nil := by
  cases es <;> simp [elemsLength]

theorem transformField_tag_congr (reg : String → Option TransformFunc)
    (acc : VMap) (n vt1 tt1 vt2 tt2 : String) (v : Value)
    (happ : ∀ (acc' : VMap) (w : Value),
      applyFieldTransforms reg acc' ⟨n, vt1, tt1⟩ w =
        applyFieldTransforms reg acc' ⟨n, vt2, tt2⟩ w) :
    transformField reg acc ⟨n, vt1, tt1⟩ v =
      transformField reg acc ⟨n, vt2, tt2⟩ v := by
  cases v with
  | vstruct fs =>
    show (if (transformStruct reg [] fs).2 = [] then
        applyFieldTransforms reg acc ⟨n, vt1, tt1⟩
          (.vstruct (transformStruct reg [] fs).1)
      else
        (.vstruct (transformStruct reg [] fs).1,
          mergePrefixed acc (n ++ ".") (transformStruct reg [] fs).2)) =
      if (transformStruct reg [] fs).2 = [] then
        applyFieldTransforms reg acc ⟨n, vt2, tt2⟩
          (.vstruct (transformStruct reg [] fs).1)
      else
        (.vstruct (transformStruct reg [] fs).1,
          mergePrefixed acc (n ++ ".") (transformStruct reg [] fs).2)
    by_cases hc : (transformStruct reg [] fs).2 = []
    · rw [if_pos hc, if_pos hc, happ]
    · rw [if_neg hc, if_neg hc]
  | vptr inner =>
    cases inner with
    | vstruct fs =>
      show (if (transformStruct reg [] fs).2 = [] then
          applyFieldTransforms reg acc ⟨n, vt1, tt1⟩
            (.vptr (.vstruct (transformStruct reg [] fs).1))
        else
          (.vptr (.vstruct (transformStruct reg [] fs).1),
            mergePrefixed acc (n ++ ".") (transformStruct reg [] fs).2)) =
        if (transformStruct reg [] fs).2 = [] then
          applyFieldTransforms reg acc ⟨n, vt2, tt2⟩
            (.vptr (.vstruct (transformStruct reg [] fs).1))
        else
          (.vptr (.vstruct (transformStruct reg [] fs).1),
            mergePrefixed acc (n ++ ".") (transformStruct reg [] fs).2)
      by_cases hc : (transformStruct reg [] fs).2 = []
      · rw [if_pos hc, if_pos hc, happ]
      · rw [if_neg hc, if_neg hc]
    | _ => exact happ acc _
  | vslice es =>
    show applyFieldTransforms reg (transformElems reg n 0 acc es).2 ⟨n, vt1, tt1⟩
        (.vslice (transformElems reg n 0 acc es).1) =
      applyFieldTransforms reg (transformElems reg n 0 acc es).2 ⟨n, vt2, tt2⟩
        (.vslice (transformElems reg n 0 acc es).1)
    exact happ _ _
  | _ => exact happ acc _

/-! ### Claims -/

/-- C1: for a string field tagged with both trim and lowercase, Transform
applies trim before lowercase regardless of the order of the tokens in
the tag, because the requested transforms are reordered ascending by the
fixed priority table (trim=1, remove_whitespace=2, lowercase=3,
uppercase=4); in particular "  ABC  " ends as "abc" under both
"trim lowercase" and "lowercase trim". -/
theorem claim_C1_trim_before_lowercase :
    (∀ ts : List String,
      List.Sorted (fun a b => priorityLookup a ≤ priorityLookup b)
          (orderTransforms ts) ∧
        List.Perm (orderTransforms ts) ts) ∧
    (∀ (lib : GoLib) (n vt : String) (s : List Char),
      Transform (builtinTransformers lib)
          (.cons ⟨n, vt, "trim lowercase"⟩ (.vstring s) .nil) =
        (.cons ⟨n, vt, "trim lowercase"⟩
          (.vstring ((stringsTrimSpace s).map lib.toLowerChar)) .nil, none) ∧
      Transform (builtinTransformers lib)
          (.cons ⟨n, vt, "lowercase trim"⟩ (.vstring s) .nil) =
        (.cons ⟨n, vt, "lowercase trim"⟩
          (.vstring ((stringsTrimSpace s).map lib.toLowerChar)) .nil, none)) ∧
    Transform (builtinTransformers asciiLib)
        (.cons ⟨"U", "", "trim lowercase"⟩ (.vstring "  ABC  ".toList) .nil) =
      (.cons ⟨"U", "", "trim lowercase"⟩ (.vstring "abc".toList) .nil, none) ∧
    Transform (builtinTransformers asciiLib)
        (.cons ⟨"U", "", "lowercase trim"⟩ (.vstring "  ABC  ".toList) .nil) =
      (.cons ⟨"U", "", "lowercase trim"⟩ (.vstring "abc".toList) .nil, none) :=
  ⟨fun ts => ⟨orderTransforms_sorted ts, orderTransforms_perm ts⟩,
    fun _lib _n _vt _s => ⟨rfl, rfl⟩, by decide, by decide⟩

/-- C2: for struct-shaped records, Validate returns ok=false with a
non-nil error whose field map is the collected Violation Set exactly when
that set is non-empty and (true, nil) otherwise, and Transform returns a
nil error exactly when its Violation Set is empty. -/
theorem claim_C2_ok_iff_violations :
    ∀ (rules : String → Option ValidationRule)
      (reg : String → Option TransformFunc) (fs : Fields),
      (Validate rules fs = (true, none) ↔ validateViolations rules [] fs = []) ∧
      (validateViolations rules [] fs ≠ [] →
        Validate rules fs =
          (false, some ⟨"validation failed", validateViolations rules [] fs⟩)) ∧
      ((Transform reg fs).2 = none ↔ (transformStruct reg [] fs).2 = []) ∧
      ((transformStruct reg [] fs).2 ≠ [] →
        (Transform reg fs).2 =
          some ⟨"transformation failed", (transformStruct reg [] fs).2⟩) := by
  intro rules reg fs
  refine ⟨?_, ?_, ?_, ?_⟩
  · by_cases h : validateViolations rules [] fs = [] <;> simp [Validate, h]
  · intro h
    simp [Validate, h]
  · by_cases h : (transformStruct reg [] fs).2 = [] <;> simp [Transform, h]
  · intro h
    simp [Transform, h]

/-- C2 witness: a record with one empty required field makes the
Violation Set non-empty and Validate reports exactly it. -/
theorem claim_C2_ok_iff_violations_witness :
    validateViolations (builtinRules asciiLib) []
        (.cons ⟨"Name", "required", ""⟩ (.vstring [] ) .nil) ≠ [] ∧
      Validate (builtinRules asciiLib)
          (.cons ⟨"Name", "required", ""⟩ (.vstring []) .nil) =
        (false, some ⟨"validation failed", [("Name", ["field is required"])]⟩) := by
  refine ⟨by decide, ?_⟩
  have h := (claim_C2_ok_iff_violations (builtinRules asciiLib)
    (builtinTransformers asciiLib)
    (.cons ⟨"Name", "required", ""⟩ (.vstring []) .nil)).2.1 (by decide)
  rw [h]
  decide

/-- C3: a Transform failure inside a nested aggregate is reported under a
path prefixed with the parent field's name at every recursion level: a
failure on Inner below a struct-valued field Outer is keyed Outer.Inner,
the same holds when Outer is a non-nil pointer to a struct, a failure on
Name in element 0 of a slice field Items is keyed Items[0].Name, and
concretely a failure three levels deep is keyed with all three prefixes
(A.B.C.S) while a pointer field P yields P.S and slice elements 0 and 1
are keyed Items[0].Name and Items[1].Name. -/
theorem claim_C3_nested_paths :
    (∀ (reg : String → Option TransformFunc) (n vt tt : String) (inner : Fields),
      (transformStruct reg [] inner).2 ≠ [] →
      Transform reg (.cons ⟨n, vt, tt⟩ (.vstruct inner) .nil) =
        (.cons ⟨n, vt, tt⟩ (.vstruct (transformStruct reg [] inner).1) .nil,
          some ⟨"transformation failed",
            ((transformStruct reg [] inner).2).map
              (fun p => (n ++ "." ++ p.1, p.2))⟩)) ∧
    (∀ (reg : String → Option TransformFunc) (n vt tt : String) (inner : Fields),
      (transformStruct reg [] inner).2 ≠ [] →
      Transform reg (.cons ⟨n, vt, tt⟩ (.vptr (.vstruct inner)) .nil) =
        (.cons ⟨n, vt, tt⟩ (.vptr (.vstruct (transformStruct reg [] inner).1)) .nil,
          some ⟨"transformation failed",
            ((transformStruct reg [] inner).2).map
              (fun p => (n ++ "." ++ p.1, p.2))⟩)) ∧
    (∀ (reg : String → Option TransformFunc) (n vt : String) (inner : Fields),
      (transformStruct reg [] inner).2 ≠ [] →
      Transform reg (.cons ⟨n, vt, ""⟩ (.vslice (.cons (.vstruct inner) .nil)) .nil) =
        (.cons ⟨n, vt, ""⟩
          (.vslice (.cons (.vstruct (transformStruct reg [] inner).1) .nil)) .nil,
          some ⟨"transformation failed",
            ((transformStruct reg [] inner).2).map
              (fun p => (n ++ "[0]." ++ p.1, p.2))⟩)) ∧
    (Transform boomReg
      (.cons ⟨"A", "", ""⟩
        (.vstruct (.cons ⟨"B", "", ""⟩
          (.vstruct (.cons ⟨"C", "", ""⟩
            (.vstruct (.cons ⟨"S", "", "boom"⟩ (.vstring "x".toList) .nil)) .nil)) .nil))
        (.cons ⟨"P", "", ""⟩
          (.vptr (.vstruct (.cons ⟨"S", "", "boom"⟩ (.vstring "y".toList) .nil)))
          (.cons ⟨"Items", "", ""⟩
            (.vslice (.cons (.vstruct (.cons ⟨"Name", "", "boom"⟩ (.vstring "n".toList) .nil))
              (.cons (.vstruct (.cons ⟨"Name", "", "boom"⟩ (.vstring "m".toList) .nil)) .nil)))
            .nil)))).2
      = some ⟨"transformation failed",
          [("A.B.C.S", ["kaboom"]), ("P.S", ["kaboom"]),
            ("Items[0].Name", ["kaboom"]), ("Items[1].Name", ["kaboom"])]⟩ :=
  ⟨transform_struct_field_keys, transform_ptr_field_keys,
    transform_slice_field_keys, by decide⟩

/-- C3 witness: the struct-prefix and pointer-prefix conjuncts applied to
a concrete failing inner record produce the F.S and P.S paths. -/
theorem claim_C3_nested_paths_witness :
    (transformStruct boomReg []
        (.cons ⟨"S", "", "boom"⟩ (.vstring "x".toList) .nil)).2 ≠ [] ∧
      Transform boomReg
          (.cons ⟨"F", "", ""⟩
            (.vstruct (.cons ⟨"S", "", "boom"⟩ (.vstring "x".toList) .nil)) .nil) =
        (.cons ⟨"F", "", ""⟩
          (.vstruct (.cons ⟨"S", "", "boom"⟩ (.vstring "x".toList) .nil)) .nil,
          some ⟨"transformation failed", [("F.S", ["kaboom"])]⟩) ∧
      Transform boomReg
          (.cons ⟨"P", "", ""⟩
            (.vptr (.vstruct (.cons ⟨"S", "", "boom"⟩ (.vstring "x".toList) .nil))) .nil) =
        (.cons ⟨"P", "", ""⟩
          (.vptr (.vstruct (.cons ⟨"S", "", "boom"⟩ (.vstring "x".toList) .nil))) .nil,
          some ⟨"transformation failed", [("P.S", ["kaboom"])]⟩) := by
  refine ⟨by decide, ?_, ?_⟩
  · have h := claim_C3_nested_paths.1 boomReg "F" "" ""
      (.cons ⟨"S", "", "boom"⟩ (.vstring "x".toList) .nil) (by decide)
    rw [h]
    decide
  · have h := claim_C3_nested_paths.2.1 boomReg "P" "" ""
      (.cons ⟨"S", "", "boom"⟩ (.vstring "x".toList) .nil) (by decide)
    rw [h]
    decide

/-- C4 counterexample: a struct-valued field F whose own transform tag is
"boom" and whose nested recursion fails: the claim says the own tag is
still processed, which would add a violation under the key F, but the
result's field map is exactly the nested F.S entry with no F key at all
(the continue statement skips the own transforms). -/
theorem claim_C4_counterexample :
    Transform boomReg
        (.cons ⟨"F", "", "boom"⟩
          (.vstruct (.cons ⟨"S", "", "boom"⟩ (.vstring "x".toList) .nil)) .nil) =
      (.cons ⟨"F", "", "boom"⟩
        (.vstruct (.cons ⟨"S", "", "boom"⟩ (.vstring "x".toList) .nil)) .nil,
        some ⟨"transformation failed", [("F.S", ["kaboom"])]⟩) ∧
      vmapGet [("F.S", ["kaboom"])] "F" = [] :=
  ⟨by decide, by decide⟩

/-- C4 amended: a failed recursion into a struct or pointer-to-struct
field skips the field's own transforms via continue, while a successful
recursion falls through to applyTransformations on the field's own tag
(stated generally for struct and pointer-to-struct fields); slice fields
always fall through regardless of element failures; concretely a failing
slice still runs the own boom tag (adding an F key) and a struct field
whose recursion succeeds has its own mark tag applied. -/
theorem claim_C4_amended_own_tag :
    (∀ (reg : String → Option TransformFunc) (acc : VMap) (fd : FieldDecl)
      (fs : Fields),
      (transformStruct reg [] fs).2 ≠ [] →
      transformField reg acc fd (.vstruct fs) =
        (.vstruct (transformStruct reg [] fs).1,
          mergePrefixed acc (fd.name ++ ".") (transformStruct reg [] fs).2)) ∧
    (∀ (reg : String → Option TransformFunc) (acc : VMap) (fd : FieldDecl)
      (fs : Fields),
      (transformStruct reg [] fs).2 ≠ [] →
      transformField reg acc fd (.vptr (.vstruct fs)) =
        (.vptr (.vstruct (transformStruct reg [] fs).1),
          mergePrefixed acc (fd.name ++ ".") (transformStruct reg [] fs).2)) ∧
    (∀ (reg : String → Option TransformFunc) (acc : VMap) (fd : FieldDecl)
      (fs : Fields),
      (transformStruct reg [] fs).2 = [] →
      transformField reg acc fd (.vstruct fs) =
        applyFieldTransforms reg acc fd (.vstruct (transformStruct reg [] fs).1)) ∧
    (∀ (reg : String → Option TransformFunc) (acc : VMap) (fd : FieldDecl)
      (fs : Fields),
      (transformStruct reg [] fs).2 = [] →
      transformField reg acc fd (.vptr (.vstruct fs)) =
        applyFieldTransforms reg acc fd (.vptr (.vstruct (transformStruct reg [] fs).1))) ∧
    (∀ (reg : String → Option TransformFunc) (acc : VMap) (fd : FieldDecl)
      (es : Elems),
      transformField reg acc fd (.vslice es) =
        applyFieldTransforms reg (transformElems reg fd.name 0 acc es).2 fd
          (.vslice (transformElems reg fd.name 0 acc es).1)) ∧
    (Transform boomReg
        (.cons ⟨"F", "", "boom"⟩
          (.vslice (.cons (.vstruct (.cons ⟨"S", "", "boom"⟩
            (.vstring "x".toList) .nil)) .nil)) .nil)).2 =
      some ⟨"transformation failed", [("F[0].S", ["kaboom"]), ("F", ["kaboom"])]⟩ ∧
    Transform markReg
        (.cons ⟨"F", "", "mark"⟩
          (.vstruct (.cons ⟨"S", "", "trim"⟩ (.vstring "  x  ".toList) .nil)) .nil) =
      (.cons ⟨"F", "", "mark"⟩ (.vstring "marked".toList) .nil, none) :=
  ⟨transformField_struct_fail, transformField_ptr_fail,
    transformField_struct_ok, transformField_ptr_ok,
    fun _ _ _ _ => rfl, by decide, by decide⟩

/-- C4 amended witness: the struct-failure conjunct applied at a concrete
input (the own boom tag left no F key), the pointer-failure conjunct at
the same inner record, and the struct-success conjunct at an input whose
recursion succeeds (the own mark tag is then applied). -/
theorem claim_C4_amended_own_tag_witness :
    ((transformStruct boomReg []
        (.cons ⟨"S", "", "boom"⟩ (.vstring "x".toList) .nil)).2 ≠ [] ∧
      transformField boomReg [] ⟨"F", "", "boom"⟩
          (.vstruct (.cons ⟨"S", "", "boom"⟩ (.vstring "x".toList) .nil)) =
        (.vstruct (.cons ⟨"S", "", "boom"⟩ (.vstring "x".toList) .nil),
          [("F.S", ["kaboom"])]) ∧
      transformField boomReg [] ⟨"F", "", "boom"⟩
          (.vptr (.vstruct (.cons ⟨"S", "", "boom"⟩ (.vstring "x".toList) .nil))) =
        (.vptr (.vstruct (.cons ⟨"S", "", "boom"⟩ (.vstring "x".toList) .nil)),
          [("F.S", ["kaboom"])])) ∧
    ((transformStruct markReg []
        (.cons ⟨"S", "", ""⟩ (.vstring "x".toList) .nil)).2 = [] ∧
      transformField markReg [] ⟨"F", "", "mark"⟩
          (.vstruct (.cons ⟨"S", "", ""⟩ (.vstring "x".toList) .nil)) =
        (.vstring "marked".toList, [])) := by
  refine ⟨⟨by decide, ?_, ?_⟩, by decide, ?_⟩
  · have h := claim_C4_amended_own_tag.1 boomReg [] ⟨"F", "", "boom"⟩
      (.cons ⟨"S", "", "boom"⟩ (.vstring "x".toList) .nil) (by decide)
    rw [h]
    decide
  · have h := claim_C4_amended_own_tag.2.1 boomReg [] ⟨"F", "", "boom"⟩
      (.cons ⟨"S", "", "boom"⟩ (.vstring "x".toList) .nil) (by decide)
    rw [h]
    decide
  · have h := claim_C4_amended_own_tag.2.2.1 markReg [] ⟨"F", "", "mark"⟩
      (.cons ⟨"S", "", ""⟩ (.vstring "x".toList) .nil) (by decide)
    rw [h]
    decide

/-- C5 counterexample: a field Outer with an empty transform tag is not
left untouched as a whole: the engine still recurses into it and its
nested string field S (tagged trim) is trimmed. -/
theorem claim_C5_counterexample :
    Transform (builtinTransformers asciiLib)
        (.cons ⟨"Outer", "", ""⟩
          (.vstruct (.cons ⟨"S", "", "trim"⟩ (.vstring "  x  ".toList) .nil)) .nil) =
      (.cons ⟨"Outer", "", ""⟩
        (.vstruct (.cons ⟨"S", "", "trim"⟩ (.vstring "x".toList) .nil)) .nil, none) ∧
      (Value.vstruct (.cons ⟨"S", "", "trim"⟩ (.vstring "x".toList) .nil)) ≠
        .vstruct (.cons ⟨"S", "", "trim"⟩ (.vstring "  x  ".toList) .nil) :=
  ⟨by decide, by decide⟩

/-- C5 amended: a field with an empty transform tag has no transform
applied to its own value (applyTransformations is the identity on it and
reports no error), and a field that is not a recursed-into aggregate
(not a struct, pointer-to-struct, or slice) is left entirely unchanged;
nested aggregate contents may still change through recursion. -/
theorem claim_C5_amended_empty_tag :
    (∀ (reg : String → Option TransformFunc) (fd : FieldDecl) (v : Value),
      fd.ttag = "" → applyTransformations reg fd v = (v, none)) ∧
    (∀ (reg : String → Option TransformFunc) (acc : VMap) (fd : FieldDecl)
      (v : Value),
      fd.ttag = "" → notRecursed v = true →
      transformField reg acc fd v = (v, acc)) := by
  constructor
  · intro reg fd v h
    unfold applyTransformations
    rw [if_pos h]
  · intro reg acc fd v h hv
    rw [transformField_notRecursed _ _ _ _ hv]
    unfold applyFieldTransforms
    have e : applyTransformations reg fd v = (v, none) := by
      unfold applyTransformations
      rw [if_pos h]
    rw [e]

/-- C5 amended witness: an untagged int field passes through unchanged. -/
theorem claim_C5_amended_empty_tag_witness :
    (FieldDecl.ttag ⟨"Age", "", ""⟩ = "") ∧ notRecursed (.vint 5) = true ∧
      transformField (builtinTransformers asciiLib) [] ⟨"Age", "", ""⟩ (.vint 5) =
        (.vint 5, []) :=
  ⟨rfl, rfl,
    claim_C5_amended_empty_tag.2 (builtinTransformers asciiLib) [] ⟨"Age", "", ""⟩
      (.vint 5) rfl rfl⟩

/-- C6: Validate is shallow: with the built-in registry, the contents of
a nested struct field (or of the struct behind a pointer field, or of a
slice's elements beyond their number) never influence the result, so
inner fields carrying failing validator tags contribute no violations;
an untagged top-level field is skipped entirely, and at the Validate
level a struct field's nested record can be replaced by an empty one
without changing the outcome. -/
theorem claim_C6_shallow_validation :
    (∀ (lib : GoLib) (acc : VMap) (n vt tt : String) (inner inner' rest : Fields),
      validateViolations (builtinRules lib) acc
          (.cons ⟨n, vt, tt⟩ (.vstruct inner) rest) =
        validateViolations (builtinRules lib) acc
          (.cons ⟨n, vt, tt⟩ (.vstruct inner') rest)) ∧
    (∀ (lib : GoLib) (acc : VMap) (n vt tt : String) (inner inner' rest : Fields),
      validateViolations (builtinRules lib) acc
          (.cons ⟨n, vt, tt⟩ (.vptr (.vstruct inner)) rest) =
        validateViolations (builtinRules lib) acc
          (.cons ⟨n, vt, tt⟩ (.vptr (.vstruct inner')) rest)) ∧
    (∀ (lib : GoLib) (acc : VMap) (n vt tt : String) (es es' : Elems)
      (rest : Fields),
      elemsLength es = elemsLength es' →
      validateViolations (builtinRules lib) acc
          (.cons ⟨n, vt, tt⟩ (.vslice es) rest) =
        validateViolations (builtinRules lib) acc
          (.cons ⟨n, vt, tt⟩ (.vslice es') rest)) ∧
    (∀ (rules : String → Option ValidationRule) (acc : VMap) (n tt : String)
      (v : Value) (rest : Fields),
      validateViolations rules acc (.cons ⟨n, "", tt⟩ v rest) =
        validateViolations rules acc rest) ∧
    (∀ (lib : GoLib) (n vt tt : String) (inner rest : Fields),
      Validate (builtinRules lib) (.cons ⟨n, vt, tt⟩ (.vstruct inner) rest) =
        Validate (builtinRules lib) (.cons ⟨n, vt, tt⟩ (.vstruct .nil) rest)) := by
  have hstruct : ∀ (lib : GoLib) (acc : VMap) (n vt tt : String)
      (inner inner' rest : Fields),
      validateViolations (builtinRules lib) acc
          (.cons ⟨n, vt, tt⟩ (.vstruct inner) rest) =
        validateViolations (builtinRules lib) acc
          (.cons ⟨n, vt, tt⟩ (.vstruct inner') rest) := by
    intro lib acc n vt tt inner inner' rest
    rw [validateViolations_cons, validateViolations_cons,
      validateField_congr (builtinRules lib) acc ⟨n, vt, tt⟩
        (.vstruct inner) (.vstruct inner')
        (fun name r h => (builtinRules_shallow lib name r h ⟨n, vt, tt⟩).1 inner inner')]
  refine ⟨hstruct, ?_, ?_, fun rules acc n tt v rest => rfl, ?_⟩
  · intro lib acc n vt tt inner inner' rest
    rw [validateViolations_cons, validateViolations_cons,
      validateField_congr (builtinRules lib) acc ⟨n, vt, tt⟩
        (.vptr (.vstruct inner)) (.vptr (.vstruct inner'))
        (fun name r h =>
          (builtinRules_shallow lib name r h ⟨n, vt, tt⟩).2.1
            (.vstruct inner) (.vstruct inner'))]
  · intro lib acc n vt tt es es' rest hlen
    rw [validateViolations_cons, validateViolations_cons,
      validateField_congr (builtinRules lib) acc ⟨n, vt, tt⟩
        (.vslice es) (.vslice es')
        (fun name r h =>
          (builtinRules_shallow lib name r h ⟨n, vt, tt⟩).2.2.2 es es' hlen)]
  · intro lib n vt tt inner rest
    unfold Validate
    rw [hstruct lib [] n vt tt inner .nil rest]

/-- C6 witness: a nested record whose inner field fails required
contributes nothing; evaluated against the empty nested record. -/
theorem claim_C6_shallow_validation_witness :
    validateViolations (builtinRules asciiLib) []
        (.cons ⟨"Outer", "", ""⟩
          (.vstruct (.cons ⟨"S", "required", ""⟩ (.vstring []) .nil)) .nil) =
      validateViolations (builtinRules asciiLib) []
        (.cons ⟨"Outer", "", ""⟩ (.vstruct .nil) .nil) ∧
    elemsLength (.cons (.vstruct (.cons ⟨"S", "required", ""⟩ (.vstring []) .nil)) .nil) =
        elemsLength (.cons .vmap .nil) ∧
      validateViolations (builtinRules asciiLib) []
          (.cons ⟨"Items", "", ""⟩
            (.vslice (.cons (.vstruct (.cons ⟨"S", "required", ""⟩
              (.vstring []) .nil)) .nil)) .nil) =
        validateViolations (builtinRules asciiLib) []
          (.cons ⟨"Items", "", ""⟩ (.vslice (.cons .vmap .nil)) .nil) :=
  ⟨claim_C6_shallow_validation.1 asciiLib [] "Outer" "" ""
      (.cons ⟨"S", "required", ""⟩ (.vstring []) .nil) .nil .nil,
    by decide,
    claim_C6_shallow_validation.2.2.1 asciiLib [] "Items" "" ""
      (.cons (.vstruct (.cons ⟨"S", "required", ""⟩ (.vstring []) .nil)) .nil)
      (.cons .vmap .nil) .nil (by decide)⟩

/-- C7: a tag token whose rule or transform name is not registered is
silently skipped by both engines, also inside tags that mix known and
unknown tokens: removing an unknown token anywhere in validateField's
token fold or in the ordered transform pipeline leaves the result
unchanged (and validateField and applyTransformations are exactly those
folds on non-empty tags); concretely "required foobar123" validates like
"required", "trim foobar123 lowercase" transforms like "trim lowercase",
and a tag that is only foobar123 contributes no violation, never errors
the call, and leaves a Transform field as if its tag were empty. -/
theorem claim_C7_unknown_names_skipped :
    (∀ (rules : String → Option ValidationRule) (fd : FieldDecl) (v : Value)
      (acc : VMap) (toks1 toks2 : List String) (tok : String),
      rules (ruleNameOf tok) = none →
      (toks1 ++ tok :: toks2).foldl (validateTok rules fd v) acc =
        (toks1 ++ toks2).foldl (validateTok rules fd v) acc) ∧
    (∀ (rules : String → Option ValidationRule) (acc : VMap) (fd : FieldDecl)
      (v : Value), fd.vtag ≠ "" →
      validateField rules acc fd v =
        (stringsFieldsS fd.vtag).foldl (validateTok rules fd v) acc) ∧
    (∀ (reg : String → Option TransformFunc) (l1 l2 : List String)
      (t : String) (v : Value), reg t = none →
      applyTransformList reg (l1 ++ t :: l2) v =
        applyTransformList reg (l1 ++ l2) v) ∧
    (∀ (reg : String → Option TransformFunc) (fd : FieldDecl) (v : Value),
      fd.ttag ≠ "" →
      applyTransformations reg fd v =
        applyTransformList reg (orderTransforms (stringsFieldsS fd.ttag)) v) ∧
    (∀ (lib : GoLib) (acc : VMap) (n tt : String) (v : Value) (rest : Fields),
      validateViolations (builtinRules lib) acc
          (.cons ⟨n, "required foobar123", tt⟩ v rest) =
        validateViolations (builtinRules lib) acc
          (.cons ⟨n, "required", tt⟩ v rest)) ∧
    (∀ (lib : GoLib) (n vt : String) (s : List Char),
      Transform (builtinTransformers lib)
          (.cons ⟨n, vt, "trim foobar123 lowercase"⟩ (.vstring s) .nil) =
        (.cons ⟨n, vt, "trim foobar123 lowercase"⟩
          (.vstring ((stringsTrimSpace s).map lib.toLowerChar)) .nil, none)) ∧
    (∀ (lib : GoLib) (acc : VMap) (n tt : String) (v : Value) (rest : Fields),
      validateViolations (builtinRules lib) acc
          (.cons ⟨n, "foobar123", tt⟩ v rest) =
        validateViolations (builtinRules lib) acc rest) ∧
    (∀ (lib : GoLib) (acc : VMap) (n vt : String) (v : Value),
      transformField (builtinTransformers lib) acc ⟨n, vt, "foobar123"⟩ v =
        transformField (builtinTransformers lib) acc ⟨n, vt, ""⟩ v) ∧
    (∀ (lib : GoLib) (n tt : String) (v : Value),
      Validate (builtinRules lib) (.cons ⟨n, "foobar123", tt⟩ v .nil) =
        (true, none)) ∧
    (∀ (lib : GoLib) (n vt : String) (s : List Char),
      Transform (builtinTransformers lib)
          (.cons ⟨n, vt, "foobar123"⟩ (.vstring s) .nil) =
        (.cons ⟨n, vt, "foobar123"⟩ (.vstring s) .nil, none)) :=
  ⟨foldl_validateTok_skip,
    fun rules acc fd v h => validateField_eq_foldl rules acc fd v h,
    fun reg l1 l2 t v h => applyTransformList_skip reg l1 l2 t v h,
    fun reg fd v h => applyTransformations_nonempty_tag reg fd v h,
    fun _lib _acc _n _tt _v _rest => rfl,
    fun _lib _n _vt _s => rfl,
    fun _lib _acc _n _tt _v _rest => rfl,
    fun lib acc n vt v =>
      transformField_tag_congr (builtinTransformers lib) acc n
        vt "foobar123" vt "" v (fun _acc' _w => rfl),
    fun _lib _n _tt _v => rfl,
    fun _lib _n _vt _s => rfl⟩

/-- C7 witness: the token-fold conjunct and the pipeline conjunct applied
with concrete mixed token lists around the unregistered foobar123. -/
theorem claim_C7_unknown_names_skipped_witness :
    builtinRules asciiLib (ruleNameOf "foobar123") = none ∧
    (["required", "foobar123"] : List String).foldl
        (validateTok (builtinRules asciiLib) ⟨"Name", "required foobar123", ""⟩
          (.vstring [])) [] =
      (["required"] : List String).foldl
        (validateTok (builtinRules asciiLib) ⟨"Name", "required foobar123", ""⟩
          (.vstring [])) [] ∧
    builtinTransformers asciiLib "foobar123" = none ∧
    applyTransformList (builtinTransformers asciiLib)
        ["trim", "foobar123", "lowercase"] (.vstring "  A  ".toList) =
      applyTransformList (builtinTransformers asciiLib)
        ["trim", "lowercase"] (.vstring "  A  ".toList) := by
  refine ⟨rfl, ?_, rfl, ?_⟩
  · exact claim_C7_unknown_names_skipped.1 (builtinRules asciiLib)
      ⟨"Name", "required foobar123", ""⟩ (.vstring []) [] ["required"] []
      "foobar123" rfl
  · exact claim_C7_unknown_names_skipped.2.2.1 (builtinTransformers asciiLib)
      ["trim"] ["lowercase"] "foobar123" (.vstring "  A  ".toList) rfl

/-- C8: with the built-in transformers, Transform never fails, the
per-field pipeline is idempotent for every transform tag, and running
Transform twice on any record gives the same record as running it once;
stated for every library whose simple case mappings satisfy the case-map
identities (which the real Unicode tables do). -/
theorem claim_C8_transform_idempotent :
    ∀ (lib : GoLib), CaseMapOk lib →
      (∀ (fd : FieldDecl) (v : Value),
        applyTransformations (builtinTransformers lib) fd
            ((applyTransformations (builtinTransformers lib) fd v).1) =
          ((applyTransformations (builtinTransformers lib) fd v).1, none)) ∧
      (∀ fs : Fields,
        (Transform (builtinTransformers lib) fs).2 = none ∧
          Transform (builtinTransformers lib)
              (Transform (builtinTransformers lib) fs).1 =
            ((Transform (builtinTransformers lib) fs).1, none)) := by
  intro lib h
  refine ⟨applyTransformations_idem lib h, ?_⟩
  intro fs
  obtain ⟨h1, h2⟩ := transformStruct_builtin_idem lib h fs []
  constructor
  · show (if (transformStruct (builtinTransformers lib) [] fs).2 = [] then none
        else some ⟨"transformation failed",
          (transformStruct (builtinTransformers lib) [] fs).2⟩ : Option Err) = none
    rw [h1]
    rfl
  · have e : Transform (builtinTransformers lib)
        (transformStruct (builtinTransformers lib) [] fs).1 =
        ((transformStruct (builtinTransformers lib) []
            (transformStruct (builtinTransformers lib) [] fs).1).1,
          if (transformStruct (builtinTransformers lib) []
              (transformStruct (builtinTransformers lib) [] fs).1).2 = [] then none
          else some ⟨"transformation failed",
            (transformStruct (builtinTransformers lib) []
              (transformStruct (builtinTransformers lib) [] fs).1).2⟩) := rfl
    show Transform (builtinTransformers lib)
        (transformStruct (builtinTransformers lib) [] fs).1 =
      ((transformStruct (builtinTransformers lib) [] fs).1, none)
    rw [e, h2]
    rfl

/-- C8 witness: asciiLib satisfies the case-map identities and Transform
applied twice to a concrete record equals Transform applied once. -/
theorem claim_C8_transform_idempotent_witness :
    CaseMapOk asciiLib ∧
      (Transform (builtinTransformers asciiLib)
          (.cons ⟨"U", "", "trim lowercase"⟩ (.vstring "  ABC  ".toList) .nil)).2 = none ∧
      Transform (builtinTransformers asciiLib)
          (Transform (builtinTransformers asciiLib)
            (.cons ⟨"U", "", "trim lowercase"⟩ (.vstring "  ABC  ".toList) .nil)).1 =
        ((Transform (builtinTransformers asciiLib)
          (.cons ⟨"U", "", "trim lowercase"⟩ (.vstring "  ABC  ".toList) .nil)).1, none) :=
  ⟨caseMapOk_asciiLib,
    ((claim_C8_transform_idempotent asciiLib caseMapOk_asciiLib).2
      (.cons ⟨"U", "", "trim lowercase"⟩ (.vstring "  ABC  ".toList) .nil)).1,
    ((claim_C8_transform_idempotent asciiLib caseMapOk_asciiLib).2
      (.cons ⟨"U", "", "trim lowercase"⟩ (.vstring "  ABC  ".toList) .nil)).2⟩

/-- C9: a transform name absent from the priority table gets priority 0,
strictly below every built-in's priority, so after reordering no built-in
ever precedes a priority-0 custom transform: customs run first regardless
of token order, as in orderTransforms ["uppercase", "mycustom"]. -/
theorem claim_C9_custom_before_builtin :
    (∀ name : String,
      name ∉ (["trim", "remove_whitespace", "lowercase", "uppercase"] : List String) →
      priorityLookup name = 0) ∧
    (∀ name ∈ (["trim", "remove_whitespace", "lowercase", "uppercase"] : List String),
      1 ≤ priorityLookup name) ∧
    (∀ ts : List String, List.Perm (orderTransforms ts) ts) ∧
    (∀ (ts pre post : List String) (c : String),
      orderTransforms ts = pre ++ c :: post → priorityLookup c = 0 →
      ∀ b ∈ pre, priorityLookup b = 0) ∧
    orderTransforms ["uppercase", "mycustom"] = ["mycustom", "uppercase"] := by
  refine ⟨?_, ?_, orderTransforms_perm, ?_, by decide⟩
  · intro name h
    simp only [List.mem_cons, List.not_mem_nil, or_false, not_or] at h
    obtain ⟨h1, h2, h3, h4⟩ := h
    unfold priorityLookup
    rw [if_neg h1, if_neg h2, if_neg h3, if_neg h4]
  · intro name h
    simp only [List.mem_cons, List.not_mem_nil, or_false] at h
    rcases h with rfl | rfl | rfl | rfl <;> decide
  · intro ts pre post c heq hc b hb
    have hs := orderTransforms_sorted ts
    rw [heq] at hs
    have hb2 := (List.pairwise_append.mp hs).2.2 b hb c (List.mem_cons_self c post)
    omega

/-- C9 witness: the unregistered name mycustom is outside the table and
gets priority 0, and in the sorted output of a mixed tag no built-in
precedes it. -/
theorem claim_C9_custom_before_builtin_witness :
    ("mycustom" ∉ (["trim", "remove_whitespace", "lowercase", "uppercase"] : List String)) ∧
      priorityLookup "mycustom" = 0 ∧
      (∀ b ∈ ([] : List String), priorityLookup b = 0) :=
  ⟨by decide, claim_C9_custom_before_builtin.1 "mycustom" (by decide),
    claim_C9_custom_before_builtin.2.2.2.1 ["uppercase", "mycustom"] []
      ["uppercase"] "mycustom" (by decide) (by decide)⟩

/-- C10: the required rule produces the violation "field is required"
exactly for an empty string, a zero signed integer, a zero float, or an
empty slice/array, and never for any other kind: Age = 0 fails required
while a nil pointer always passes. -/
theorem claim_C10_required_rule :
    ∀ (fd : FieldDecl) (v : Value),
      (requiredRule v fd ≠ [] ↔
        (v = .vstring [] ∨ v = .vint 0 ∨ v = .vfloat 0 ∨
          v = .vslice .nil ∨ v = .varray .nil)) ∧
      (requiredRule v fd ≠ [] → requiredRule v fd = ["field is required"]) ∧
      requiredRule (.vint 0) fd = ["field is required"] ∧
      requiredRule .vptrNil fd = [] := by
  intro fd v
  refine ⟨?_, ?_, rfl, rfl⟩
  · cases v with
    | vstring s => by_cases hs : s = [] <;> simp [requiredRule, hs]
    | vint n => by_cases hn : n = 0 <;> simp [requiredRule, hn]
    | vfloat q => by_cases hq : q = 0 <;> simp [requiredRule, hq]
    | vslice es =>
      by_cases he : es = Elems.nil <;>
        simp [requiredRule, elemsLength_eq_zero_iff, he]
    | varray es =>
      by_cases he : es = Elems.nil <;>
        simp [requiredRule, elemsLength_eq_zero_iff, he]
    | _ => simp [requiredRule]
  · cases v with
    | vstring s => by_cases hs : s = [] <;> simp [requiredRule, hs]
    | vint n => by_cases hn : n = 0 <;> simp [requiredRule, hn]
    | vfloat q => by_cases hq : q = 0 <;> simp [requiredRule, hq]
    | vslice es =>
      by_cases he : elemsLength es = 0 <;> simp [requiredRule, he]
    | varray es =>
      by_cases he : elemsLength es = 0 <;> simp [requiredRule, he]
    | _ => simp [requiredRule]

/-- C10 witness: Age = 0 fails required with the expected message. -/
theorem claim_C10_required_rule_witness :
    requiredRule (.vint 0) ⟨"Age", "required", ""⟩ ≠ [] ∧
      requiredRule (.vint 0) ⟨"Age", "required", ""⟩ = ["field is required"] :=
  ⟨by decide,
    (claim_C10_required_rule ⟨"Age", "required", ""⟩ (.vint 0)).2.1 (by decide)⟩

end GoVerify

